import Mathlib

/-!
# Searchless: vector-store engine exercised by the demos

The demos under `demos/` build sample documents and call a vector-store API
(`CreateCollection`, `AddDocuments`, `QueryEmbedding`, ...).  The engine behind
that API is not part of the demo sources, so it is modelled here from the design
document; the helper functions the demos define themselves (`cosineSimilarity`,
`euclideanDistance`, ...) are embedded from their Go source.

Numbers: Go `float32` values are embedded in exact arithmetic as elements of a
linearly ordered field `K`; the square root is a parameter `sqrt : K → K`.
Where Go divides, IEEE division by zero is kept explicit (`F32`).  The
benchmark's `generateRandomEmbedding` is embedded over `ℚ` with `float32`
rounding (`Go.float32`).
-/

namespace Searchless

/-! ## Data model -/

/-- Error taxonomy of the engine (design document, section 7). -/
inductive EngineError where
  | DuplicateCollectionName
  | CollectionNotFound
  | DimensionMismatch
  | InvalidFilter
  | EmptyQueryEmbedding
  | EmbeddingProviderError
  | PersistenceIOError
  | ContextCanceled
  deriving DecidableEq, Repr

/-- A Go `map[string]string`, kept as an association list (first binding wins). -/
abbrev StrMap := List (String × String)

/-- The `chromem.Document` literal the demos construct: `ID`, `Content`,
`Embedding` (a slice, empty when the document lacks an embedding) and `Metadata`. -/
structure Document (K : Type) where
  ID : String
  Content : String
  Embedding : List K
  Metadata : StrMap
  deriving DecidableEq, Repr

/-- One element of a query result: the demos read `ID`, `Content`, `Metadata`
and `Similarity` from it. -/
structure Result (K : Type) where
  ID : String
  Content : String
  Metadata : StrMap
  Similarity : K
  deriving DecidableEq, Repr

/-- Modelled from the spec: the Collection of the document store (the engine is
missing from the sources).  It has a name, descriptive metadata, an embedding
dimensionality established by the first document added, and a mapping from
document ID to Document, kept as a list with one entry per ID. -/
structure Collection (K : Type) where
  Name : String
  Metadata : StrMap
  dimension : Option Nat
  documents : List (Document K)
  deriving DecidableEq, Repr

/-! ## VectorMath -/

namespace VectorMath

variable {K : Type} [LinearOrderedField K]

/-- Modelled from the spec: the dot product of VectorMath (engine missing from
the sources), the sum of the component-wise products. -/
def dot : List K → List K → K
  | x :: xs, y :: ys => x * y + dot xs ys
  | _, _ => 0

/-- Modelled from the spec: the norm of VectorMath (engine missing from the
sources), the square root of the dot product of a vector with itself. -/
def norm (sqrt : K → K) (a : List K) : K := sqrt (dot a a)

/-- Modelled from the spec: the value `cosineSimilarity(a, b)` of VectorMath
computes (engine missing from the sources): `dot(a,b) / (‖a‖·‖b‖)`, and when
either norm is zero the result is defined as `0`. -/
def cosine (sqrt : K → K) (a b : List K) : K :=
  if norm sqrt a = 0 ∨ norm sqrt b = 0 then 0
  else dot a b / (norm sqrt a * norm sqrt b)

/-- Modelled from the spec: `cosineSimilarity(a, b)` of VectorMath (engine
missing from the sources).  It requires `len(a) == len(b) > 0` and fails with
`DimensionMismatch` otherwise. -/
def cosineSimilarity (sqrt : K → K) (a b : List K) : Except EngineError K :=
  if a.length = b.length ∧ 0 < a.length then .ok (cosine sqrt a b)
  else .error .DimensionMismatch

end VectorMath

/-! ## FilterEngine -/

namespace FilterEngine

/-- Byte-wise prefix test, the inner comparison of Go's `strings.Contains`. -/
def startsWith : List UInt8 → List UInt8 → Bool
  | [], _ => true
  | _ :: _, [] => false
  | p :: ps, c :: cs => p == c && startsWith ps cs

/-- Byte-wise substring search: does `sub` occur at some offset of `s`? -/
def containsBytes (sub : List UInt8) : List UInt8 → Bool
  | [] => sub.isEmpty
  | c :: cs => startsWith sub (c :: cs) || containsBytes sub cs

/-- The bytes of a Go string (its UTF-8 encoding). -/
def bytes (s : String) : List UInt8 := s.data.flatMap String.utf8EncodeChar

/-- Modelled from the spec: substring containment as used by `matchesContent`
(case-sensitive, byte-wise). -/
def contains (s sub : String) : Bool := containsBytes (bytes sub) (bytes s)

variable {K : Type}

/-- Modelled from the spec: `matchesMetadata(doc, filter)` of the FilterEngine
(engine missing from the sources).  Every key of the filter must be present in
`doc.Metadata` with an exactly equal value; an empty filter matches everything. -/
def matchesMetadata (doc : Document K) (filter : StrMap) : Bool :=
  filter.all fun kv => doc.Metadata.lookup kv.1 == some kv.2

/-- Modelled from the spec: `matchesContent(doc, filter)` of the FilterEngine
(engine missing from the sources).  The key `$contains` carries a substring and
matches iff `doc.Content` contains it; any other key fails with `InvalidFilter`;
an absent filter matches everything. -/
def matchesContent (doc : Document K) : StrMap → Except EngineError Bool
  | [] => .ok true
  | kv :: rest =>
    if kv.1 = "$contains" then
      match matchesContent doc rest with
      | .ok r => .ok (contains doc.Content kv.2 && r)
      | .error e => .error e
    else .error .InvalidFilter

/-- Does the content filter select the document: `matchesContent` answers, and
answers yes. -/
def selects (doc : Document K) (contentFilter : StrMap) : Bool :=
  match matchesContent doc contentFilter with
  | .ok b => b
  | .error _ => false

/-- A content filter the FilterEngine recognises: every key is `$contains`. -/
def validContentFilter (filter : StrMap) : Bool :=
  filter.all fun kv => kv.1 == "$contains"

/-- Both filters at once, for a recognised content filter: the metadata filter
holds and the content contains the substring of every `$contains` entry. -/
def passes (doc : Document K) (metadataFilter contentFilter : StrMap) : Bool :=
  matchesMetadata doc metadataFilter &&
    contentFilter.all fun kv => contains doc.Content kv.2

end FilterEngine

/-! ## Document Store -/

section Store

variable {K : Type} [LinearOrderedField K]

/-- Ranking order of query results: higher similarity first, and among equal
similarities the smaller ID first.  (Go compares strings byte-wise; on UTF-8
text that is the code-point order of `String`.) -/
def ranksBefore (x y : Result K) : Bool :=
  decide (y.Similarity < x.Similarity) ||
    (decide (x.Similarity = y.Similarity) && decide (x.ID < y.ID))

/-- Insert a result into a ranked list, in front of the first element it
ranks before. -/
def insertRanked (x : Result K) : List (Result K) → List (Result K)
  | [] => [x]
  | y :: ys => if ranksBefore x y then x :: y :: ys else y :: insertRanked x ys

/-- Modelled from the spec: bounded top-K selection (engine missing from the
sources).  The buffer holds the best `n` results seen so far, in ranked order;
a new result is placed and the buffer is cut back to `n` entries. -/
def retainTop (n : Nat) (x : Result K) (top : List (Result K)) : List (Result K) :=
  (insertRanked x top).take n

/-- The result record of a document with similarity `s`. -/
def Document.toResult (d : Document K) (s : K) : Result K :=
  { ID := d.ID, Content := d.Content, Metadata := d.Metadata, Similarity := s }

/-- Modelled from the spec: the scan of `QueryEmbedding` (engine missing from the
sources).  Every stored document is visited; one failing `matchesMetadata` or
`matchesContent` is skipped; otherwise the cosine similarity of its embedding
against the query is computed and the top `n` are retained. -/
def scan (sqrt : K → K) (queryEmbedding : List K) (n : Nat)
    (metadataFilter contentFilter : StrMap) :
    List (Document K) → List (Result K) → Except EngineError (List (Result K))
  | [], top => .ok top
  | d :: ds, top =>
    match FilterEngine.matchesContent d contentFilter with
    | .error e => .error e
    | .ok inContent =>
      if FilterEngine.matchesMetadata d metadataFilter && inContent then
        match VectorMath.cosineSimilarity sqrt queryEmbedding d.Embedding with
        | .error e => .error e
        | .ok s =>
          scan sqrt queryEmbedding n metadataFilter contentFilter ds
            (retainTop n (d.toResult s) top)
      else scan sqrt queryEmbedding n metadataFilter contentFilter ds top

/-- Modelled from the spec: `QueryEmbedding(queryEmbedding, nResults,
metadataFilter, contentFilter)` of the Collection (engine missing from the
sources).  An empty collection answers with the empty sequence; otherwise
`nResults ≥ 1` and `len(queryEmbedding)` equal to the collection's dimensionality
are required (`DimensionMismatch` otherwise), and the stored documents are
scanned.  The design names no other error for a bad `nResults` or an empty
query, so both fall under that one.  A `nil` filter of the Go callers is the
empty map. -/
def QueryEmbedding (sqrt : K → K) (c : Collection K) (queryEmbedding : List K)
    (nResults : Int) (metadataFilter contentFilter : StrMap) :
    Except EngineError (List (Result K)) :=
  if c.documents.isEmpty then .ok []
  else if nResults < 1 ∨ c.dimension ≠ some queryEmbedding.length then
    .error .DimensionMismatch
  else scan sqrt queryEmbedding nResults.toNat metadataFilter contentFilter c.documents []

/-- Modelled from the spec: `Count()` of the Collection (engine missing from the
sources), the current number of stored documents. -/
def Count (c : Collection K) : Nat := c.documents.length

/-- Insert a document into the ID → Document mapping, overwriting the entry of
the same ID when there is one. -/
def upsert : List (Document K) → Document K → List (Document K)
  | [], d => [d]
  | x :: xs, d => if x.ID = d.ID then d :: xs else x :: upsert xs d

/-- Modelled from the spec: the EmbeddingProvider capability (external
collaborator).  `none` is the no-provider variant the demos pass as `nil`;
`some embed` maps a text to an embedding or fails (`none`). -/
abbrev EmbeddingProvider (K : Type) := Option (String → Option (List K))

/-- Modelled from the spec: embedding phase for one document of `AddDocuments`.
A document that carries an embedding is left alone; one lacking an embedding
obtains it from the provider, whose failure is `EmbeddingProviderError`. -/
def resolveEmbedding (provider : EmbeddingProvider K) (d : Document K) :
    Except EngineError (Document K) :=
  if d.Embedding.isEmpty then
    match provider with
    | none => .error .EmbeddingProviderError
    | some embed =>
      match embed d.Content with
      | none => .error .EmbeddingProviderError
      | some e => .ok { d with Embedding := e }
  else .ok d

/-- Embedding phase for a whole batch; the first failure fails the batch. -/
def resolveAll (provider : EmbeddingProvider K) :
    List (Document K) → Except EngineError (List (Document K))
  | [] => .ok []
  | d :: ds =>
    match resolveEmbedding provider d with
    | .error e => .error e
    | .ok d1 =>
      match resolveAll provider ds with
      | .error e => .error e
      | .ok rest => .ok (d1 :: rest)

/-- Modelled from the spec: `AddDocuments(documents, concurrency)` of the
Collection (engine missing from the sources), as a state transition returning
the collection after the call and the error, if any.  Embeddings are obtained
first; the dimensionality is the established one, or that of the first document
ever added; a mismatch fails the batch with `DimensionMismatch` before anything
is committed; on success every document is inserted or overwrites its ID.
`concurrency` only bounds the parallelism of the embedding phase. -/
def AddDocuments (provider : EmbeddingProvider K) (c : Collection K)
    (documents : List (Document K)) (_concurrency : Int) :
    Collection K × Option EngineError :=
  match resolveAll provider documents with
  | .error e => (c, some e)
  | .ok [] => (c, none)
  | .ok (d :: ds) =>
    let dim := c.dimension.getD d.Embedding.length
    if (d :: ds).all fun x => x.Embedding.length == dim then
      ({ c with dimension := some dim, documents := (d :: ds).foldl upsert c.documents }, none)
    else (c, some .DimensionMismatch)

/-- Modelled from the spec: `Delete(id)` of the Collection (engine missing from
the sources), as a state transition: the document of that ID is removed, and an
absent ID is not an error. -/
def Delete (c : Collection K) (id : String) : Collection K × Option EngineError :=
  ({ c with documents := c.documents.filter fun d => d.ID != id }, none)

/-- Modelled from the spec: a freshly created collection, with no documents and
no dimensionality yet (`CreateCollection(name, metadata, provider)`). -/
def newCollection (name : String) (metadata : StrMap) : Collection K :=
  { Name := name, Metadata := metadata, dimension := none, documents := [] }

/-- The Collection invariant of the data model: one entry per ID, and every
stored embedding is non-empty and has exactly the collection's dimensionality. -/
def Collection.WF (c : Collection K) : Prop :=
  (c.documents.map Document.ID).Nodup ∧
    ∀ x ∈ c.documents, x.Embedding ≠ [] ∧ c.dimension = some x.Embedding.length

/-- The dimension part of the Collection invariant: one entry per ID, and every
stored embedding has exactly the collection's dimensionality. -/
def Collection.Consistent (c : Collection K) : Prop :=
  (c.documents.map Document.ID).Nodup ∧
    ∀ x ∈ c.documents, c.dimension = some x.Embedding.length

/-- The stored documents that pass both filters, in storage order. -/
def matching (c : Collection K) (metadataFilter contentFilter : StrMap) :
    List (Document K) :=
  c.documents.filter fun d => FilterEngine.passes d metadataFilter contentFilter

/-- The matching documents with their cosine similarity to the query. -/
def scoredMatches (sqrt : K → K) (c : Collection K) (queryEmbedding : List K)
    (metadataFilter contentFilter : StrMap) : List (Result K) :=
  (matching c metadataFilter contentFilter).map fun d =>
    d.toResult (VectorMath.cosine sqrt queryEmbedding d.Embedding)

/-- A provider that never hands out an empty embedding. -/
def providerNonEmpty (provider : EmbeddingProvider K) : Prop :=
  ∀ embed, provider = some embed → ∀ text e, embed text = some e → e ≠ []

/-- The full ranking of a list of results: each one inserted in ranked order. -/
def rankAll (xs : List (Result K)) : List (Result K) :=
  xs.foldl (fun t x => insertRanked x t) []

end Store

/-! ## Persistence Layer -/

section Persistence

variable {K : Type} [LinearOrderedField K] {R : Type}

/-- Modelled from the spec: the record format of the Persistence Layer (missing
from the sources).  The design fixes no byte layout, so the serializer and the
deserializer are parameters; a corrupt record fails to decode. -/
structure Codec (K R : Type) where
  encode : Document K → R
  decode : R → Option (Document K)

/-- Modelled from the spec: the per-collection directory under the storage root
(missing from the sources): a collection-level metadata record (name,
descriptive metadata, dimensionality) and one durable record per document,
keyed by document ID. -/
structure CollectionDir (R : Type) where
  name : String
  metadata : StrMap
  dimension : Option Nat
  records : List (String × R)

/-- Write one record under its key, replacing the record of the same key. -/
def writeRecord : List (String × R) → String × R → List (String × R)
  | [], r => [r]
  | x :: xs, r => if x.1 = r.1 then r :: xs else x :: writeRecord xs r

/-- Modelled from the spec: the directory of a freshly created collection. -/
def newDir (name : String) (metadata : StrMap) : CollectionDir R :=
  { name := name, metadata := metadata, dimension := none, records := [] }

/-- Modelled from the spec: `AddDocuments` on a collection with a persistence
layer attached (missing from the sources).  The batch is committed in memory;
when that succeeds, each new or overwritten document is serialized to the
collection's directory, and the metadata record follows the collection. -/
def persistentAdd (codec : Codec K R) (provider : EmbeddingProvider K)
    (s : Collection K × CollectionDir R) (documents : List (Document K))
    (concurrency : Int) : (Collection K × CollectionDir R) × Option EngineError :=
  match AddDocuments provider s.1 documents concurrency with
  | (c, none) =>
    match resolveAll provider documents with
    | .ok batch =>
      ((c, { s.2 with
              dimension := c.dimension,
              records := batch.foldl
                (fun rs d => writeRecord rs (d.ID, codec.encode d)) s.2.records }), none)
    | .error e => (s, some e)
  | (_, some e) => (s, some e)

/-- A collection populated by a sequence of `AddDocuments` calls, each with its
batch and concurrency; failed calls leave memory and disk as they were. -/
def populate (codec : Codec K R) (provider : EmbeddingProvider K)
    (s : Collection K × CollectionDir R) (calls : List (List (Document K) × Int)) :
    Collection K × CollectionDir R :=
  calls.foldl (fun st call => (persistentAdd codec provider st call.1 call.2).1) s

/-- Decode every record of a directory listing; one corrupt record aborts. -/
def decodeAll (codec : Codec K R) : List (String × R) → Option (List (Document K))
  | [] => some []
  | r :: rs =>
    match codec.decode r.2 with
    | none => none
    | some d =>
      match decodeAll codec rs with
      | none => none
      | some ds => some (d :: ds)

/-- Modelled from the spec: opening a persisted collection (missing from the
sources).  Every record of the directory is read back into memory, in the order
the directory lists them; a corrupt record fails with `PersistenceIOError` and
aborts the whole collection load. -/
def openCollection (codec : Codec K R) (dir : CollectionDir R) :
    Except EngineError (Collection K) :=
  match decodeAll codec dir.records with
  | none => .error .PersistenceIOError
  | some docs =>
    .ok { Name := dir.name, Metadata := dir.metadata, dimension := dir.dimension,
          documents := docs }

/-- Memory and disk agree: the directory carries the collection's name,
metadata and dimensionality, and one record per stored document, in step with
the mapping. -/
def inSync (codec : Codec K R) (s : Collection K × CollectionDir R) : Prop :=
  s.2.name = s.1.Name ∧ s.2.metadata = s.1.Metadata ∧ s.2.dimension = s.1.dimension ∧
    s.2.records = s.1.documents.map fun d => (d.ID, codec.encode d)

/-- The same directory, its records listed in another order (the order in
which a directory is read back is not fixed). -/
def relist (dir : CollectionDir R) (listing : List (String × R)) : CollectionDir R :=
  { dir with records := listing }

/-- A record format to exercise the persistence model with: a record is the
document itself. -/
def plainCodec (K : Type) : Codec K (Document K) :=
  { encode := fun d => d, decode := fun r => some r }

end Persistence

/-! ## Demo 02: hand-written similarity functions -/

/-- A Go `float32` result in exact arithmetic: a finite value, or one of the
IEEE results of a division by zero. -/
inductive F32 (K : Type) where
  | finite (x : K)
  | posInf
  | negInf
  | nan
  deriving DecidableEq, Repr

/-- Run-time panics of the Go code. -/
inductive GoPanic where
  | indexOutOfRange
  | makeSliceLenOutOfRange
  deriving DecidableEq, Repr

namespace Demo02

variable {K : Type} [LinearOrderedField K]

/-- IEEE division `x / y` of finite values, the divisor's zero being `+0`:
`0/0` is NaN and a non-zero value over zero is an infinity. -/
def fdiv (x y : K) : F32 K :=
  if y = 0 then
    if x = 0 then .nan else if 0 < x then .posInf else .negInf
  else .finite (x / y)

/-- The loop of `cosineSimilarity`: `for i := range a` adds `a[i]*b[i]`,
`a[i]*a[i]` and `b[i]*b[i]` to `dotProduct`, `normA` and `normB`; reading `b[i]`
past the end of `b` panics. -/
def cosineLoop : List K → List K → K × K × K → Except GoPanic (K × K × K)
  | [], _, acc => .ok acc
  | _ :: _, [], _ => .error .indexOutOfRange
  | x :: xs, y :: ys, (dotProduct, normA, normB) =>
    cosineLoop xs ys (dotProduct + x * y, normA + x * x, normB + y * y)

/-- `cosineSimilarity(a, b []float32) float32` of demo 02: the loop, then
`dotProduct / (sqrt(normA) * sqrt(normB))`. -/
def cosineSimilarity (sqrt : K → K) (a b : List K) : Except GoPanic (F32 K) :=
  match cosineLoop a b (0, 0, 0) with
  | .error e => .error e
  | .ok (dotProduct, normA, normB) => .ok (fdiv dotProduct (sqrt normA * sqrt normB))

/-- The loop of `euclideanDistance`: `for i := range a` adds the square of
`a[i] - b[i]` to `sum`; reading `b[i]` past the end of `b` panics. -/
def euclideanLoop : List K → List K → K → Except GoPanic K
  | [], _, sum => .ok sum
  | _ :: _, [], _ => .error .indexOutOfRange
  | x :: xs, y :: ys, sum => euclideanLoop xs ys (sum + (x - y) * (x - y))

/-- `euclideanDistance(a, b []float32) float32` of demo 02: the loop, then the
square root of the sum. -/
def euclideanDistance (sqrt : K → K) (a b : List K) : Except GoPanic K :=
  match euclideanLoop a b 0 with
  | .error e => .error e
  | .ok sum => .ok (sqrt sum)

/-- `distanceToSimilarity(distance float32) float32` of demo 02:
`1.0 / (1.0 + distance)`. -/
def distanceToSimilarity (distance : K) : F32 K :=
  fdiv 1 (1 + distance)

/-- The `docDistance` record of demo 02 (`main`). -/
structure docDistance (K : Type) where
  id : String
  content : String
  distance : K
  similarity : K

/-- The body of the inner loop of the hand-written sort:
`if r[i].distance > r[j].distance { r[i], r[j] = r[j], r[i] }`. -/
def swapStep (r : List (docDistance K)) (i j : Nat) : List (docDistance K) :=
  match r[i]?, r[j]? with
  | some x, some y => if x.distance > y.distance then (r.set i y).set j x else r
  | _, _ => r

/-- The inner loop `for j := i + 1; j < len(r); j++`, entered at `j` with
`trips` iterations left (a swap does not change `len(r)`). -/
def innerLoop (i : Nat) : Nat → Nat → List (docDistance K) → List (docDistance K)
  | 0, _, r => r
  | trips + 1, j, r => innerLoop i trips (j + 1) (swapStep r i j)

/-- The outer loop `for i := 0; i < len(r); i++`, entered at `i` with `trips`
iterations left; each runs the inner loop over `j = i+1, ..., len(r)-1`. -/
def outerLoop : Nat → Nat → List (docDistance K) → List (docDistance K)
  | 0, _, r => r
  | trips + 1, i, r => outerLoop trips (i + 1) (innerLoop i (r.length - (i + 1)) (i + 1) r)

/-- The hand-written sort of demo 02 ("Sort by distance (ascending)"), the same
nested loops for `euclideanResults` and for `manhattanResults`. -/
def sortByDistance (r : List (docDistance K)) : List (docDistance K) :=
  outerLoop r.length 0 r

/-- The sum of the component-wise products over the common prefix of two
vectors, which the loops of demo 02 accumulate. -/
def sumProducts : List K → List K → K
  | x :: xs, y :: ys => x * y + sumProducts xs ys
  | _, _ => 0

/-- One run of the inner loop of the sort seen from the slot `r[i]`: `cur` is
the record in that slot, `todo` the records still to be compared with it; the
result is the record left in the slot and the records left behind, in order. -/
def passOver : docDistance K → List (docDistance K) → docDistance K × List (docDistance K)
  | cur, [] => (cur, [])
  | cur, y :: ys =>
    if cur.distance > y.distance then ((passOver y ys).1, cur :: (passOver y ys).2)
    else ((passOver cur ys).1, y :: (passOver cur ys).2)

end Demo02

/-! ## Demo 04: generateQueryEmbedding -/

namespace Demo04

variable {K : Type} [LinearOrderedField K]

/-- A Go `int` of `bits` bits holding the mathematical value `n`: two's
complement wrap-around. -/
def wrapInt (bits : Nat) (n : Int) : Int :=
  (n + 2 ^ (bits - 1)) % 2 ^ bits - 2 ^ (bits - 1)

/-- The hash loop `for _, char := range query { hash = hash*31 + int(char) }`,
over the code points of the string. -/
def hashOf (bits : Nat) (query : String) : Int :=
  query.data.foldl (fun hash char => wrapInt bits (hash * 31 + (char.toNat : Int))) 0

/-- The loop `for embedding[i] > 1.0 { embedding[i] -= 1.0 }`, with a bound on
the number of condition checks. -/
def subtractLoop : Nat → K → Option K
  | 0, _ => none
  | fuel + 1, x => if x > 1 then subtractLoop fuel (x - 1) else some x

/-- The loop `for embedding[i] < 0.0 { embedding[i] += 1.0 }`, with a bound on
the number of condition checks. -/
def addLoop : Nat → K → Option K
  | 0, _ => none
  | fuel + 1, x => if x < 0 then addLoop fuel (x + 1) else some x

/-- The body of `for i := range embedding`: the initial value
`base + float32(i)*0.1 + float32(len(query)%10)*0.01`, then the two loops. -/
def component (fuel : Nat) (base : K) (queryLen : Nat) (i : Nat) : Option K :=
  match subtractLoop fuel (base + (i : K) * 0.1 + ((queryLen % 10 : Nat) : K) * 0.01) with
  | none => none
  | some x => addLoop fuel x

/-- The components for the given indices, in order. -/
def components (f : Nat → Option K) : List Nat → Option (List K)
  | [] => some []
  | i :: rest =>
    match f i, components f rest with
    | some x, some xs => some (x :: xs)
    | _, _ => none

/-- `generateQueryEmbedding(query string) []float32` of demo 04.  `hash%1000`
is Go's truncated remainder, `len(query)` the length in bytes, and the slice has
16 components. -/
def generateQueryEmbedding (bits fuel : Nat) (query : String) : Option (List K) :=
  components
    (component fuel ((Int.tmod (hashOf bits query) 1000 : Int) / 1000) query.utf8ByteSize)
    (List.range 16)

end Demo04

/-! ## Benchmarks: generateRandomEmbedding -/

namespace Go

/-- Round to the nearest integer, a tie going to the even one. -/
def roundHalfEven (q : ℚ) : Int :=
  if q - ⌊q⌋ < 1 / 2 then ⌊q⌋
  else if 1 / 2 < q - ⌊q⌋ then ⌊q⌋ + 1
  else if ⌊q⌋ % 2 = 0 then ⌊q⌋ else ⌊q⌋ + 1

/-- The binary exponent of the `float32` binade of `x`: `⌊log₂ |x|⌋`, and `-126`
for the subnormal values below. -/
def binadeExp (x : ℚ) : Int := max (Int.log 2 |x|) (-126)

/-- The spacing of the `float32` values in the binade of `x` (24-bit
significand). -/
def ulp32 (x : ℚ) : ℚ := (2 : ℚ) ^ (binadeExp x - 23)

/-- The result of a `float32` operation whose exact result is `x`: the `float32`
nearest to `x`, ties to even (IEEE 754 binary32, subnormals included), for `x`
below the overflow threshold. -/
def float32 (x : ℚ) : ℚ := (roundHalfEven (x / ulp32 x) : ℚ) * ulp32 x

end Go

namespace Benchmarks

/-- `generateRandomEmbedding(dimension int) []float32` of the benchmark program,
in `float32` arithmetic.  `rand i` is the value the `i`-th call of
`rand.Float32()` returns; `embedding[i] = rand.Float32()*2 - 1` rounds the
product and then the difference.  `make([]float32, dimension)` panics on a
negative length and on one above `maxLen`, the largest length it accepts on the
platform. -/
def generateRandomEmbedding (maxLen : Int) (rand : Nat → ℚ) (dimension : Int) :
    Except GoPanic (List ℚ) :=
  if dimension < 0 ∨ maxLen < dimension then .error .makeSliceLenOutOfRange
  else .ok ((List.range dimension.toNat).map fun i =>
    Go.float32 (Go.float32 (rand i * 2) - 1))

/-- A value `rand.Float32()` can return: the `float32` `8858437 · 2⁻²⁷`. -/
def sampleRand : ℚ := 8858437 / 2 ^ 27

end Benchmarks

/-! ## Sample data -/

section Data

variable {K : Type} [LinearOrderedField K]

/-- The three documents of the example scenario in the design document. -/
def exampleDocuments : List (Document K) :=
  [ { ID := "A", Content := "", Embedding := [1, 0, 0, 0], Metadata := [] },
    { ID := "B", Content := "", Embedding := [0, 1, 0, 0], Metadata := [] },
    { ID := "C", Content := "", Embedding := [0.9, 0.1, 0, 0], Metadata := [] } ]

/-- The `documents` list of demo 01 (`main`). -/
def Demo01.documents : List (Document K) :=
  [
    { ID := "1",
      Content := "Relational database management systems store data in tables with structured relationships",
      Embedding := [0.1, 0.8, 0.2, 0.9, 0.3, 0.7, 0.4, 0.6, 0.5, 0.8, 0.1, 0.9, 0.2, 0.7, 0.3, 0.6],
      Metadata := [] },
    { ID := "2",
      Content := "NoSQL databases provide flexible schema and horizontal scaling capabilities",
      Embedding := [0.2, 0.7, 0.3, 0.8, 0.4, 0.6, 0.5, 0.9, 0.1, 0.7, 0.2, 0.8, 0.3, 0.6, 0.4, 0.9],
      Metadata := [] },
    { ID := "3",
      Content := "Vector databases enable similarity search using machine learning embeddings",
      Embedding := [0.3, 0.6, 0.4, 0.7, 0.5, 0.9, 0.1, 0.8, 0.2, 0.6, 0.3, 0.7, 0.4, 0.9, 0.5, 0.8],
      Metadata := [] },
    { ID := "4",
      Content := "Microservices architecture decomposes applications into small, independent services",
      Embedding := [0.4, 0.5, 0.6, 0.3, 0.7, 0.2, 0.8, 0.1, 0.9, 0.5, 0.4, 0.6, 0.7, 0.8, 0.3, 0.2],
      Metadata := [] },
    { ID := "5",
      Content := "Container orchestration platforms manage deployment and scaling of containerized applications",
      Embedding := [0.5, 0.4, 0.7, 0.2, 0.8, 0.1, 0.9, 0.3, 0.6, 0.4, 0.5, 0.7, 0.8, 0.2, 0.9, 0.1],
      Metadata := [] },
    { ID := "6",
      Content := "Machine learning models learn patterns from data to make predictions",
      Embedding := [0.6, 0.3, 0.8, 0.1, 0.9, 0.2, 0.7, 0.4, 0.5, 0.3, 0.6, 0.8, 0.9, 0.1, 0.7, 0.2],
      Metadata := [] },
    { ID := "7",
      Content := "Cloud computing provides on-demand access to computing resources over the internet",
      Embedding := [0.7, 0.2, 0.9, 0.1, 0.8, 0.3, 0.6, 0.5, 0.4, 0.2, 0.7, 0.9, 0.8, 0.3, 0.6, 0.1],
      Metadata := [] },
    { ID := "8",
      Content := "DevOps practices integrate development and operations for faster software delivery",
      Embedding := [0.8, 0.1, 0.7, 0.3, 0.6, 0.4, 0.5, 0.2, 0.9, 0.1, 0.8, 0.7, 0.6, 0.4, 0.5, 0.3],
      Metadata := [] },
    { ID := "9",
      Content := "API gateways manage and secure access to microservices and backend systems",
      Embedding := [0.9, 0.2, 0.6, 0.4, 0.5, 0.8, 0.3, 0.7, 0.1, 0.2, 0.9, 0.6, 0.5, 0.8, 0.4, 0.7],
      Metadata := [] },
    { ID := "10",
      Content := "Distributed systems coordinate multiple computers to work together as a single system",
      Embedding := [0.1, 0.9, 0.5, 0.6, 0.2, 0.8, 0.4, 0.7, 0.3, 0.9, 0.1, 0.5, 0.6, 0.7, 0.8, 0.4],
      Metadata := [] } ]

/-- The query embedding of demo 01. -/
def Demo01.queryEmbedding : List K :=
  [0.15, 0.75, 0.25, 0.85, 0.35, 0.65, 0.45, 0.7, 0.3, 0.8, 0.15, 0.85, 0.25, 0.65, 0.35, 0.75]

/-- The `tech-concepts` collection of demo 01 after `CreateCollection` and
`AddDocuments(ctx, documents, 1)`. -/
def Demo01.collection : Collection K :=
  (AddDocuments none (newCollection "tech-concepts" []) Demo01.documents 1).1

/-- The `documents` list of `createAndSave` in demo 03. -/
def Demo03.documents : List (Document K) :=
  [
    { ID := "doc-001",
      Content := "Docker containers provide lightweight, portable application packaging",
      Embedding := [0.1, 0.9, 0.3, 0.7, 0.5, 0.8, 0.2, 0.6, 0.4, 0.9, 0.1, 0.8, 0.3, 0.7, 0.5, 0.6],
      Metadata := [("category", "containerization"), ("difficulty", "beginner")] },
    { ID := "doc-002",
      Content := "Kubernetes orchestrates containers across clusters with automated scaling",
      Embedding := [0.2, 0.8, 0.4, 0.6, 0.3, 0.9, 0.1, 0.7, 0.5, 0.8, 0.2, 0.6, 0.4, 0.9, 0.3, 0.7],
      Metadata := [("category", "orchestration"), ("difficulty", "advanced")] },
    { ID := "doc-003",
      Content := "Microservice architecture breaks applications into independent, deployable services",
      Embedding := [0.3, 0.7, 0.5, 0.9, 0.1, 0.6, 0.2, 0.8, 0.4, 0.7, 0.3, 0.9, 0.5, 0.6, 0.1, 0.8],
      Metadata := [("category", "architecture"), ("difficulty", "intermediate")] },
    { ID := "doc-004",
      Content := "REST APIs enable communication between services using HTTP protocols",
      Embedding := [0.4, 0.6, 0.2, 0.8, 0.3, 0.7, 0.5, 0.9, 0.1, 0.6, 0.4, 0.8, 0.2, 0.7, 0.3, 0.9],
      Metadata := [("category", "api"), ("difficulty", "beginner")] },
    { ID := "doc-005",
      Content := "Database sharding distributes data across multiple database instances",
      Embedding := [0.5, 0.9, 0.1, 0.7, 0.3, 0.8, 0.4, 0.6, 0.2, 0.9, 0.5, 0.7, 0.1, 0.8, 0.3, 0.6],
      Metadata := [("category", "database"), ("difficulty", "advanced")] } ]

/-- The query embedding demo 03 uses before exit and again after reload. -/
def Demo03.queryEmbedding : List K :=
  [0.15, 0.85, 0.35, 0.65, 0.45, 0.75, 0.25, 0.55, 0.4, 0.8, 0.15, 0.7, 0.35, 0.6, 0.45, 0.65]

/-- The second query embedding of `loadAndQuery` in demo 03. -/
def Demo03.queryEmbedding2 : List K :=
  [0.25, 0.75, 0.45, 0.55, 0.35, 0.85, 0.15, 0.65, 0.3, 0.9, 0.25, 0.6, 0.45, 0.7, 0.35, 0.8]

/-- The third query embedding of `loadAndQuery` in demo 03. -/
def Demo03.queryEmbedding3 : List K :=
  [0.35, 0.65, 0.25, 0.75, 0.45, 0.55, 0.35, 0.85, 0.15, 0.7, 0.35, 0.8, 0.25, 0.9, 0.45, 0.6]

/-- The list `createDocumentationSnippets()` of demo 04 returns. -/
def Demo04.createDocumentationSnippets : List (Document K) :=
  [
    { ID := "be-001",
      Content := "Set up a REST API using Node.js and Express framework. Configure middleware for logging, CORS, and authentication. Define routes for CRUD operations.",
      Embedding := [0.1, 0.9, 0.2, 0.8, 0.3, 0.7, 0.4, 0.6, 0.5, 0.8, 0.1, 0.9, 0.2, 0.7, 0.3, 0.6],
      Metadata := [("category", "backend"), ("difficulty", "intermediate"), ("topic", "api")] },
    { ID := "be-002",
      Content := "Database connection pooling in PostgreSQL. Configure maximum connections, timeout settings, and connection retry logic for production environments.",
      Embedding := [0.2, 0.8, 0.3, 0.7, 0.4, 0.6, 0.5, 0.9, 0.1, 0.7, 0.2, 0.8, 0.3, 0.6, 0.4, 0.9],
      Metadata := [("category", "backend"), ("difficulty", "advanced"), ("topic", "database")] },
    { ID := "be-003",
      Content := "Implement caching strategies using Redis. Set up cache invalidation policies, handle distributed caching, and optimize cache hit ratios.",
      Embedding := [0.3, 0.7, 0.4, 0.6, 0.5, 0.9, 0.1, 0.8, 0.2, 0.6, 0.3, 0.7, 0.4, 0.9, 0.5, 0.8],
      Metadata := [("category", "backend"), ("difficulty", "advanced"), ("topic", "performance")] },
    { ID := "be-004",
      Content := "Handle file uploads securely. Validate file types, limit file sizes, scan for malware, and store files in cloud storage with proper access controls.",
      Embedding := [0.4, 0.6, 0.5, 0.9, 0.1, 0.8, 0.2, 0.7, 0.3, 0.5, 0.4, 0.6, 0.7, 0.8, 0.9, 0.2],
      Metadata := [("category", "backend"), ("difficulty", "intermediate"), ("topic", "security")] },
    { ID := "fe-001",
      Content := "Create responsive layouts using CSS Grid and Flexbox. Implement mobile-first design patterns and ensure cross-browser compatibility.",
      Embedding := [0.5, 0.5, 0.6, 0.4, 0.7, 0.3, 0.8, 0.2, 0.9, 0.4, 0.5, 0.6, 0.7, 0.8, 0.3, 0.2],
      Metadata := [("category", "frontend"), ("difficulty", "intermediate"), ("topic", "css")] },
    { ID := "fe-002",
      Content := "State management in React applications. Use Redux Toolkit for complex state, Context API for simple state, and implement proper state normalization.",
      Embedding := [0.6, 0.4, 0.7, 0.3, 0.8, 0.2, 0.9, 0.1, 0.5, 0.3, 0.6, 0.7, 0.8, 0.2, 0.9, 0.1],
      Metadata := [("category", "frontend"), ("difficulty", "advanced"), ("topic", "react")] },
    { ID := "fe-003",
      Content := "Optimize web performance using lazy loading, code splitting, and image optimization. Implement service workers for offline functionality.",
      Embedding := [0.7, 0.3, 0.8, 0.2, 0.9, 0.1, 0.6, 0.4, 0.5, 0.2, 0.7, 0.8, 0.9, 0.1, 0.6, 0.3],
      Metadata := [("category", "frontend"), ("difficulty", "advanced"), ("topic", "performance")] },
    { ID := "fe-004",
      Content := "Form validation and user input handling. Implement client-side validation, sanitize inputs, provide meaningful error messages, and handle accessibility.",
      Embedding := [0.8, 0.2, 0.9, 0.1, 0.6, 0.4, 0.5, 0.3, 0.7, 0.1, 0.8, 0.9, 0.6, 0.4, 0.5, 0.7],
      Metadata := [("category", "frontend"), ("difficulty", "intermediate"), ("topic", "forms")] },
    { ID := "do-001",
      Content := "Deploy applications using Docker containers. Create optimized Dockerfiles, manage multi-stage builds, and implement container orchestration with Kubernetes.",
      Embedding := [0.9, 0.1, 0.8, 0.2, 0.7, 0.3, 0.6, 0.4, 0.5, 0.9, 0.1, 0.8, 0.7, 0.6, 0.4, 0.5],
      Metadata := [("category", "devops"), ("difficulty", "advanced"), ("topic", "containers")] },
    { ID := "do-002",
      Content := "Set up CI/CD pipelines using GitHub Actions. Automate testing, building, and deployment processes. Configure environment-specific deployments.",
      Embedding := [0.1, 0.8, 0.2, 0.9, 0.3, 0.6, 0.4, 0.7, 0.5, 0.8, 0.1, 0.9, 0.2, 0.7, 0.3, 0.6],
      Metadata := [("category", "devops"), ("difficulty", "intermediate"), ("topic", "cicd")] },
    { ID := "do-003",
      Content := "Monitor applications using Prometheus and Grafana. Set up metrics collection, create alerting rules, and build comprehensive dashboards.",
      Embedding := [0.2, 0.7, 0.3, 0.8, 0.4, 0.5, 0.6, 0.9, 0.1, 0.7, 0.2, 0.8, 0.3, 0.6, 0.4, 0.9],
      Metadata := [("category", "devops"), ("difficulty", "advanced"), ("topic", "monitoring")] },
    { ID := "do-004",
      Content := "Infrastructure as Code using Terraform. Define cloud resources, manage state files, and implement proper resource lifecycle management.",
      Embedding := [0.3, 0.6, 0.4, 0.7, 0.5, 0.4, 0.7, 0.8, 0.2, 0.6, 0.3, 0.7, 0.4, 0.9, 0.5, 0.8],
      Metadata := [("category", "devops"), ("difficulty", "advanced"), ("topic", "infrastructure")] },
    { ID := "sec-001",
      Content := "Implement OAuth 2.0 authentication flow. Configure authorization servers, handle token refresh, and secure API endpoints with proper scopes.",
      Embedding := [0.4, 0.5, 0.6, 0.3, 0.7, 0.2, 0.8, 0.1, 0.9, 0.5, 0.4, 0.6, 0.7, 0.8, 0.3, 0.2],
      Metadata := [("category", "security"), ("difficulty", "advanced"), ("topic", "authentication")] },
    { ID := "sec-002",
      Content := "Secure API endpoints against common attacks. Implement rate limiting, input validation, SQL injection prevention, and CSRF protection.",
      Embedding := [0.5, 0.4, 0.7, 0.2, 0.8, 0.1, 0.9, 0.3, 0.6, 0.4, 0.5, 0.7, 0.8, 0.2, 0.9, 0.1],
      Metadata := [("category", "security"), ("difficulty", "intermediate"), ("topic", "api-security")] },
    { ID := "sec-003",
      Content := "Data encryption at rest and in transit. Use AES encryption for stored data, implement TLS properly, and manage encryption keys securely.",
      Embedding := [0.6, 0.3, 0.8, 0.1, 0.9, 0.2, 0.7, 0.4, 0.5, 0.3, 0.6, 0.8, 0.9, 0.1, 0.7, 0.2],
      Metadata := [("category", "security"), ("difficulty", "advanced"), ("topic", "encryption")] },
    { ID := "db-001",
      Content := "Optimize database queries for better performance. Use proper indexing strategies, analyze query execution plans, and implement query caching.",
      Embedding := [0.7, 0.2, 0.9, 0.1, 0.8, 0.3, 0.6, 0.5, 0.4, 0.2, 0.7, 0.9, 0.8, 0.3, 0.6, 0.1],
      Metadata := [("category", "database"), ("difficulty", "advanced"), ("topic", "performance")] },
    { ID := "db-002",
      Content := "Database backup and recovery strategies. Implement automated backups, test restore procedures, and set up point-in-time recovery.",
      Embedding := [0.8, 0.1, 0.7, 0.3, 0.6, 0.4, 0.5, 0.2, 0.9, 0.1, 0.8, 0.7, 0.6, 0.4, 0.5, 0.3],
      Metadata := [("category", "database"), ("difficulty", "intermediate"), ("topic", "backup")] },
    { ID := "db-003",
      Content := "Database migration best practices. Plan schema changes, handle data transformations, and ensure zero-downtime deployments.",
      Embedding := [0.9, 0.2, 0.6, 0.4, 0.5, 0.8, 0.3, 0.7, 0.1, 0.2, 0.9, 0.6, 0.5, 0.8, 0.4, 0.7],
      Metadata := [("category", "database"), ("difficulty", "intermediate"), ("topic", "migration")] },
    { ID := "test-001",
      Content := "Write comprehensive unit tests using Jest and React Testing Library. Test components, hooks, and async operations with proper mocking.",
      Embedding := [0.1, 0.9, 0.5, 0.6, 0.2, 0.8, 0.4, 0.7, 0.3, 0.9, 0.1, 0.5, 0.6, 0.7, 0.8, 0.4],
      Metadata := [("category", "testing"), ("difficulty", "intermediate"), ("topic", "unit-testing")] },
    { ID := "test-002",
      Content := "Integration testing for API endpoints. Test database interactions, external service calls, and end-to-end workflows with realistic data.",
      Embedding := [0.2, 0.8, 0.6, 0.5, 0.3, 0.7, 0.5, 0.8, 0.4, 0.8, 0.2, 0.6, 0.7, 0.8, 0.9, 0.5],
      Metadata := [("category", "testing"), ("difficulty", "advanced"), ("topic", "integration-testing")] },
    { ID := "test-003",
      Content := "Automated browser testing with Playwright. Create reliable end-to-end tests, handle dynamic content, and implement visual regression testing.",
      Embedding := [0.3, 0.7, 0.7, 0.4, 0.4, 0.6, 0.6, 0.9, 0.5, 0.7, 0.3, 0.7, 0.8, 0.9, 0.1, 0.6],
      Metadata := [("category", "testing"), ("difficulty", "advanced"), ("topic", "e2e-testing")] },
    { ID := "perf-001",
      Content := "Application performance monitoring and optimization. Use profiling tools, identify bottlenecks, and implement performance improvements.",
      Embedding := [0.4, 0.6, 0.8, 0.3, 0.5, 0.5, 0.7, 0.1, 0.6, 0.6, 0.4, 0.8, 0.9, 0.1, 0.2, 0.7],
      Metadata := [("category", "performance"), ("difficulty", "advanced"), ("topic", "monitoring")] },
    { ID := "perf-002",
      Content := "Load testing and capacity planning. Use tools like JMeter or k6 to simulate traffic, identify system limits, and plan for scaling.",
      Embedding := [0.5, 0.5, 0.9, 0.2, 0.6, 0.4, 0.8, 0.2, 0.7, 0.5, 0.5, 0.9, 0.1, 0.2, 0.3, 0.8],
      Metadata := [("category", "performance"), ("difficulty", "advanced"), ("topic", "load-testing")] },
    { ID := "debug-001",
      Content := "Debug production issues using logging and monitoring tools. Set up structured logging, analyze error patterns, and implement alerting.",
      Embedding := [0.6, 0.4, 0.1, 0.1, 0.7, 0.3, 0.9, 0.3, 0.8, 0.4, 0.6, 0.1, 0.2, 0.3, 0.4, 0.9],
      Metadata := [("category", "debugging"), ("difficulty", "intermediate"), ("topic", "production")] },
    { ID := "debug-002",
      Content := "Memory leak detection and resolution. Use memory profiling tools, identify leak sources, and implement proper memory management.",
      Embedding := [0.7, 0.3, 0.2, 0.9, 0.8, 0.2, 0.1, 0.4, 0.9, 0.3, 0.7, 0.2, 0.3, 0.4, 0.5, 0.1],
      Metadata := [("category", "debugging"), ("difficulty", "advanced"), ("topic", "memory")] },
    { ID := "debug-003",
      Content := "Distributed tracing for microservices. Implement OpenTelemetry, trace requests across services, and analyze performance bottlenecks.",
      Embedding := [0.8, 0.2, 0.3, 0.8, 0.9, 0.1, 0.2, 0.5, 0.1, 0.2, 0.8, 0.3, 0.4, 0.5, 0.6, 0.2],
      Metadata := [("category", "debugging"), ("difficulty", "advanced"), ("topic", "tracing")] } ]

/-- The query embedding of the backend-only search in demo 04. -/
def Demo04.backendQuery : List K :=
  [0.4, 0.8, 0.2, 0.9, 0.3, 0.7, 0.5, 0.6, 0.1, 0.8, 0.4, 0.9, 0.2, 0.7, 0.3, 0.6]

/-- The query embedding of the DevOps-only search in demo 04. -/
def Demo04.devopsQuery : List K :=
  [0.6, 0.7, 0.3, 0.8, 0.4, 0.9, 0.2, 0.5, 0.7, 0.6, 0.8, 0.3, 0.9, 0.4, 0.5, 0.2]

/-- The query embedding of the `Docker` content search in demo 04. -/
def Demo04.dockerQuery : List K :=
  [0.5, 0.6, 0.4, 0.7, 0.3, 0.8, 0.2, 0.9, 0.1, 0.6, 0.5, 0.7, 0.4, 0.8, 0.3, 0.9]

/-- The collection of the example scenario: created empty, then the three
documents added in one batch with no embedding provider. -/
def exampleCollection : Collection K :=
  (AddDocuments none (newCollection "scenario" []) exampleDocuments 1).1

/-- The `knowledge-base` collection of demo 03 after `createAndSave` has called
`CreateCollection` and `AddDocuments(ctx, documents, 1)`. -/
def Demo03.collection : Collection K :=
  (AddDocuments none
    (newCollection "knowledge-base"
      [("description", "Technical documentation snippets"), ("version", "1.0")])
    Demo03.documents 1).1

/-- The `docs` collection of demo 04 after `CreateCollection` and
`AddDocuments(ctx, documents, 1)`. -/
def Demo04.collection : Collection K :=
  (AddDocuments none (newCollection "docs" []) Demo04.createDocumentationSnippets 1).1

/-- Memory and disk as `createAndSave` of demo 03 leaves them. -/
def Demo03.persisted : Collection K × CollectionDir (Document K) :=
  populate (plainCodec K) none
    (newCollection "knowledge-base"
      [("description", "Technical documentation snippets"), ("version", "1.0")],
     newDir "knowledge-base"
      [("description", "Technical documentation snippets"), ("version", "1.0")])
    [(Demo03.documents, 1)]

end Data

/-! # Theorems -/

/-! ## Ranking and bounded selection -/

section Ranking

open FilterEngine VectorMath

variable {K : Type} [LinearOrderedField K]

theorem ranksBefore_iff (x y : Result K) :
    ranksBefore x y = true ↔
      y.Similarity < x.Similarity ∨ (x.Similarity = y.Similarity ∧ x.ID < y.ID) := by
  simp [ranksBefore]

theorem ranksBefore_trans {x y z : Result K} (hxy : ranksBefore x y = true)
    (hyz : ranksBefore y z = true) : ranksBefore x z = true := by
  rw [ranksBefore_iff] at *
  rcases hxy with h1 | ⟨h1, h2⟩ <;> rcases hyz with h3 | ⟨h3, h4⟩
  · exact Or.inl (lt_trans h3 h1)
  · exact Or.inl (h3 ▸ h1)
  · exact Or.inl (h1 ▸ h3)
  · exact Or.inr ⟨h1.trans h3, lt_trans h2 h4⟩

theorem ranksBefore_total {x y : Result K} (hne : x.ID ≠ y.ID)
    (h : ranksBefore x y = false) : ranksBefore y x = true := by
  have h1 : ¬ (y.Similarity < x.Similarity ∨ (x.Similarity = y.Similarity ∧ x.ID < y.ID)) := by
    rw [← ranksBefore_iff]; simp [h]
  rw [ranksBefore_iff]
  push_neg at h1
  rcases lt_or_eq_of_le h1.1 with h2 | h2
  · exact Or.inl h2
  · right
    refine ⟨h2.symm, ?_⟩
    have := h1.2 h2
    exact lt_of_le_of_ne (not_lt.mp this) (Ne.symm hne)

theorem mem_insertRanked {x y : Result K} {l : List (Result K)} :
    y ∈ insertRanked x l ↔ y = x ∨ y ∈ l := by
  induction l with
  | nil => simp [insertRanked]
  | cons z zs ih =>
    unfold insertRanked
    split
    · simp
    · simp [ih]; tauto

theorem perm_insertRanked (x : Result K) (l : List (Result K)) :
    (insertRanked x l).Perm (x :: l) := by
  induction l with
  | nil => simp [insertRanked]
  | cons z zs ih =>
    unfold insertRanked
    split
    · exact List.Perm.refl _
    · exact (List.Perm.cons z ih).trans (List.Perm.swap x z zs)

theorem pairwise_insertRanked {x : Result K} {l : List (Result K)}
    (hl : l.Pairwise fun a b => ranksBefore a b = true)
    (hx : ∀ y ∈ l, x.ID ≠ y.ID) :
    (insertRanked x l).Pairwise fun a b => ranksBefore a b = true := by
  induction l with
  | nil => simp [insertRanked]
  | cons z zs ih =>
    unfold insertRanked
    rw [List.pairwise_cons] at hl
    split
    · rename_i hxz
      refine List.Pairwise.cons ?_ (List.Pairwise.cons hl.1 hl.2)
      intro b hb
      rcases List.mem_cons.mp hb with rfl | hb
      · exact hxz
      · exact ranksBefore_trans hxz (hl.1 b hb)
    · rename_i hxz
      have hzx : ranksBefore z x = true :=
        ranksBefore_total (hx z (List.mem_cons_self _ _)) (by simpa using hxz)
      refine List.Pairwise.cons ?_ (ih hl.2 fun y hy => hx y (List.mem_cons_of_mem _ hy))
      intro b hb
      rcases mem_insertRanked.mp hb with rfl | hb
      · exact hzx
      · exact hl.1 b hb

theorem take_insertRanked_take (x : Result K) (n : Nat) (l : List (Result K)) :
    (insertRanked x (l.take n)).take n = (insertRanked x l).take n := by
  induction l generalizing n with
  | nil => simp
  | cons z zs ih =>
    cases n with
    | zero => simp
    | succ m =>
      simp only [List.take_succ_cons, insertRanked]
      split
      · cases m with
        | zero => simp
        | succ k => simp [List.take_take]
      · simp [ih m]

theorem foldl_retainTop (n : Nat) (xs top : List (Result K)) :
    xs.foldl (fun t x => retainTop n x t) (top.take n) =
      (xs.foldl (fun t x => insertRanked x t) top).take n := by
  induction xs generalizing top with
  | nil => simp
  | cons x xs ih =>
    simp only [List.foldl_cons, retainTop]
    rw [take_insertRanked_take, ← ih]
    simp [retainTop]

theorem perm_foldl_insertRanked (xs top : List (Result K)) :
    (xs.foldl (fun t x => insertRanked x t) top).Perm (top ++ xs) := by
  induction xs generalizing top with
  | nil => simp
  | cons x xs ih =>
    simp only [List.foldl_cons]
    refine (ih _).trans ?_
    refine ((perm_insertRanked x top).append_right xs).trans ?_
    simpa using (@List.perm_middle _ x top xs).symm

theorem pairwise_foldl_insertRanked (xs top : List (Result K))
    (ht : top.Pairwise fun a b => ranksBefore a b = true)
    (hnd : ((top ++ xs).map Result.ID).Nodup) :
    (xs.foldl (fun t x => insertRanked x t) top).Pairwise fun a b => ranksBefore a b = true := by
  induction xs generalizing top with
  | nil => simpa using ht
  | cons x xs ih =>
    simp only [List.foldl_cons]
    have hperm : (insertRanked x top ++ xs).Perm (top ++ x :: xs) :=
      ((perm_insertRanked x top).append_right xs).trans
        (by simpa using (@List.perm_middle _ x top xs).symm)
    apply ih
    · apply pairwise_insertRanked ht
      intro y hy hxy
      rw [List.map_append, List.map_cons, List.nodup_append] at hnd
      exact hnd.2.2 (List.mem_map_of_mem _ hy) (by rw [← hxy]; exact List.mem_cons_self _ _)
    · exact (hperm.map Result.ID).nodup_iff.mpr hnd

omit [LinearOrderedField K] in
theorem matchesContent_valid (d : Document K) (cf : StrMap)
    (hcf : validContentFilter cf = true) :
    matchesContent d cf = .ok (cf.all fun kv => contains d.Content kv.2) := by
  induction cf with
  | nil => rfl
  | cons kv rest ih =>
    simp only [validContentFilter, List.all_cons, Bool.and_eq_true, beq_iff_eq] at hcf
    have hrest : validContentFilter rest = true := by
      simpa [validContentFilter] using hcf.2
    simp [matchesContent, hcf.1, ih hrest]

theorem scan_eq (sqrt : K → K) (q : List K) (n : Nat) (mf cf : StrMap)
    (hcf : validContentFilter cf = true) (hq : 0 < q.length)
    (docs : List (Document K)) (hdocs : ∀ d ∈ docs, d.Embedding.length = q.length)
    (top : List (Result K)) :
    scan sqrt q n mf cf docs top =
      .ok (((docs.filter fun d => passes d mf cf).map fun d =>
        d.toResult (cosine sqrt q d.Embedding)).foldl (fun t x => retainTop n x t) top) := by
  induction docs generalizing top with
  | nil => rfl
  | cons d ds ih =>
    have hd : d.Embedding.length = q.length := hdocs d (List.mem_cons_self _ _)
    have hds : ∀ x ∈ ds, x.Embedding.length = q.length :=
      fun x hx => hdocs x (List.mem_cons_of_mem _ hx)
    have hcos : cosineSimilarity sqrt q d.Embedding = .ok (cosine sqrt q d.Embedding) := by
      simp [cosineSimilarity, hd, hq]
    rw [scan, matchesContent_valid d cf hcf]
    by_cases hp : passes d mf cf = true
    · have hp2 := hp
      simp only [passes] at hp2
      simp only [hp2, if_true, hcos]
      rw [ih hds]
      simp [List.filter_cons, hp]
    · have hp2 := hp
      simp only [passes] at hp2
      simp only [hp2]
      rw [ih hds]
      simp [List.filter_cons, hp]

theorem QueryEmbedding_eq (sqrt : K → K) (c : Collection K) (hwf : c.WF)
    (q : List K) (hq : c.dimension = some q.length)
    (nResults : Int) (hn : 1 ≤ nResults) (mf cf : StrMap)
    (hcf : validContentFilter cf = true) :
    QueryEmbedding sqrt c q nResults mf cf =
      .ok ((rankAll (scoredMatches sqrt c q mf cf)).take nResults.toNat) := by
  unfold QueryEmbedding
  by_cases he : c.documents = []
  · simp [he, rankAll, scoredMatches, matching]
  · have hne : c.documents.isEmpty = false := by
      cases hc : c.documents with
      | nil => exact absurd hc he
      | cons a l => rfl
    have hlen : ∀ d ∈ c.documents, d.Embedding.length = q.length := by
      intro d hd
      have := (hwf.2 d hd).2
      rw [hq] at this
      exact (Option.some.inj this).symm
    have hpos : 0 < q.length := by
      cases hc : c.documents with
      | nil => exact absurd hc he
      | cons a l =>
        have ha : a ∈ c.documents := by rw [hc]; exact List.mem_cons_self _ _
        have h1 := (hwf.2 a ha).1
        rw [← hlen a ha]
        exact List.length_pos.mpr h1
    have hguard : ¬ (nResults < 1 ∨ c.dimension ≠ some q.length) := by
      push_neg; exact ⟨hn, hq⟩
    rw [hne]
    simp only [if_neg hguard, Bool.false_eq_true, if_false]
    rw [scan_eq sqrt q _ mf cf hcf hpos c.documents hlen []]
    have := foldl_retainTop nResults.toNat (scoredMatches sqrt c q mf cf) []
    simp only [List.take_nil] at this
    rw [rankAll, ← this]
    rfl

end Ranking

/-! ## AddDocuments and the Collection invariant -/

section AddLemmas

variable {K : Type}

theorem resolveEmbedding_ok {provider : EmbeddingProvider K} {d d1 : Document K}
    (h : resolveEmbedding provider d = .ok d1) :
    d1.ID = d.ID ∧ d1.Content = d.Content ∧ d1.Metadata = d.Metadata ∧
      (d.Embedding ≠ [] → d1 = d) ∧ (providerNonEmpty provider → d1.Embedding ≠ []) := by
  unfold resolveEmbedding at h
  by_cases he : d.Embedding.isEmpty = true
  · rw [if_pos he] at h
    cases provider with
    | none => simp at h
    | some embed =>
      simp only at h
      cases hem : embed d.Content with
      | none => simp [hem] at h
      | some e =>
        simp only [hem, Except.ok.injEq] at h
        subst h
        refine ⟨rfl, rfl, rfl, ?_, ?_⟩
        · intro hne; exact absurd (List.isEmpty_iff.mp he) hne
        · intro hp; exact hp embed rfl _ _ hem
  · rw [if_neg he] at h
    simp only [Except.ok.injEq] at h
    subst h
    refine ⟨rfl, rfl, rfl, fun _ => rfl, fun _ => ?_⟩
    intro h0; exact he (List.isEmpty_iff.mpr h0)

theorem resolveAll_mem {provider : EmbeddingProvider K} :
    ∀ {docs batch : List (Document K)}, resolveAll provider docs = .ok batch →
      ∀ x ∈ batch, ∃ d ∈ docs, resolveEmbedding provider d = .ok x := by
  intro docs
  induction docs with
  | nil =>
    intro batch h
    simp only [resolveAll, Except.ok.injEq] at h
    subst h; simp
  | cons d ds ih =>
    intro batch h
    unfold resolveAll at h
    cases h1 : resolveEmbedding provider d with
    | error e => simp [h1] at h
    | ok d1 =>
      cases h2 : resolveAll provider ds with
      | error e => simp [h1, h2] at h
      | ok rest =>
        simp only [h1, h2, Except.ok.injEq] at h
        subst h
        intro x hx
        rcases List.mem_cons.mp hx with rfl | hx
        · exact ⟨d, List.mem_cons_self _ _, h1⟩
        · obtain ⟨y, hy, hy2⟩ := ih h2 x hx
          exact ⟨y, List.mem_cons_of_mem _ hy, hy2⟩

theorem resolveAll_supplied (provider : EmbeddingProvider K) (docs : List (Document K))
    (h : ∀ d ∈ docs, d.Embedding ≠ []) : resolveAll provider docs = .ok docs := by
  induction docs with
  | nil => rfl
  | cons d ds ih =>
    have hd : d.Embedding.isEmpty = false := by
      have := h d (List.mem_cons_self _ _)
      cases hE : d.Embedding with
      | nil => exact absurd hE this
      | cons a l => rfl
    have hds := ih fun x hx => h x (List.mem_cons_of_mem _ hx)
    simp [resolveAll, resolveEmbedding, hd, hds]

theorem mem_upsert {docs : List (Document K)} {d x : Document K} :
    x ∈ upsert docs d → x = d ∨ x ∈ docs := by
  induction docs with
  | nil => simp [upsert]
  | cons y ys ih =>
    unfold upsert
    split
    · intro h
      rcases List.mem_cons.mp h with h | h
      · exact Or.inl h
      · exact Or.inr (List.mem_cons_of_mem _ h)
    · intro h
      rcases List.mem_cons.mp h with h | h
      · exact Or.inr (h ▸ List.mem_cons_self _ _)
      · rcases ih h with h | h
        · exact Or.inl h
        · exact Or.inr (List.mem_cons_of_mem _ h)

theorem upsert_ids_mem {docs : List (Document K)} {d : Document K} {i : String} :
    i ∈ (upsert docs d).map Document.ID ↔ i = d.ID ∨ i ∈ docs.map Document.ID := by
  induction docs with
  | nil => simp [upsert]
  | cons y ys ih =>
    unfold upsert
    split
    · rename_i h; simp [h]
    · simp only [List.map_cons, List.mem_cons, ih]; tauto

theorem nodup_upsert {docs : List (Document K)} (d : Document K)
    (h : (docs.map Document.ID).Nodup) : ((upsert docs d).map Document.ID).Nodup := by
  induction docs with
  | nil => simp [upsert]
  | cons y ys ih =>
    rw [List.map_cons, List.nodup_cons] at h
    unfold upsert
    split
    · rename_i hy
      rw [List.map_cons, List.nodup_cons, ← hy]; exact h
    · rename_i hy
      rw [List.map_cons, List.nodup_cons]
      refine ⟨?_, ih h.2⟩
      rw [upsert_ids_mem]
      rintro (h1 | h1)
      · exact hy h1
      · exact h.1 h1

theorem foldl_upsert_inv (P : Document K → Prop) (batch : List (Document K)) :
    ∀ docs : List (Document K), (docs.map Document.ID).Nodup → (∀ x ∈ docs, P x) →
      (∀ x ∈ batch, P x) →
      ((batch.foldl upsert docs).map Document.ID).Nodup ∧
        ∀ x ∈ batch.foldl upsert docs, P x := by
  induction batch with
  | nil => intro docs hn hp _; exact ⟨hn, hp⟩
  | cons b bs ih =>
    intro docs hn hp hb
    simp only [List.foldl_cons]
    apply ih (upsert docs b) (nodup_upsert b hn)
    · intro x hx
      rcases mem_upsert hx with h | h
      · exact h ▸ hb b (List.mem_cons_self _ _)
      · exact hp x h
    · exact fun x hx => hb x (List.mem_cons_of_mem _ hx)

theorem upsert_fresh {docs : List (Document K)} {d : Document K}
    (h : d.ID ∉ docs.map Document.ID) : upsert docs d = docs ++ [d] := by
  induction docs with
  | nil => rfl
  | cons y ys ih =>
    simp only [List.map_cons, List.mem_cons, not_or] at h
    unfold upsert
    rw [if_neg (fun e => h.1 e.symm), ih h.2]; rfl

theorem foldl_upsert_fresh (batch : List (Document K)) :
    ∀ docs : List (Document K), ((docs ++ batch).map Document.ID).Nodup →
      batch.foldl upsert docs = docs ++ batch := by
  induction batch with
  | nil => intro docs _; simp
  | cons b bs ih =>
    intro docs hn
    have hb : b.ID ∉ docs.map Document.ID := by
      intro hmem
      rw [List.map_append, List.map_cons, List.nodup_append] at hn
      exact hn.2.2 hmem (List.mem_cons_self _ _)
    simp only [List.foldl_cons]
    rw [upsert_fresh hb, ih]
    · simp
    · simpa using hn

/-- `AddDocuments` keeps the Collection invariant. -/
theorem AddDocuments_WF (provider : EmbeddingProvider K) (hp : providerNonEmpty provider)
    (c : Collection K) (hwf : c.WF) (documents : List (Document K)) (concurrency : Int) :
    (AddDocuments provider c documents concurrency).1.WF := by
  unfold AddDocuments
  cases hres : resolveAll provider documents with
  | error e => exact hwf
  | ok batch =>
    cases batch with
    | nil => exact hwf
    | cons d ds =>
      simp only
      split
      · rename_i hall
        have hne : ∀ x ∈ d :: ds, x.Embedding ≠ [] := by
          intro x hx
          obtain ⟨y, _, hy⟩ := resolveAll_mem hres x hx
          exact (resolveEmbedding_ok hy).2.2.2.2 hp
        have hdim : ∀ x ∈ d :: ds,
            x.Embedding.length = c.dimension.getD d.Embedding.length := by
          intro x hx
          have := List.all_eq_true.mp hall x hx
          simpa using this
        have hold : ∀ x ∈ c.documents,
            x.Embedding ≠ [] ∧ x.Embedding.length = c.dimension.getD d.Embedding.length := by
          intro x hx
          have := hwf.2 x hx
          refine ⟨this.1, ?_⟩
          rw [this.2]; rfl
        have := foldl_upsert_inv
          (fun x => x.Embedding ≠ [] ∧ x.Embedding.length = c.dimension.getD d.Embedding.length)
          (d :: ds) c.documents hwf.1 hold (fun x hx => ⟨hne x hx, hdim x hx⟩)
        refine ⟨this.1, ?_⟩
        intro x hx
        have hx2 := this.2 x hx
        exact ⟨hx2.1, by simp only; rw [hx2.2]⟩
      · exact hwf

/-- `AddDocuments` keeps the dimension part of the invariant, whatever the
provider returns. -/
theorem AddDocuments_consistent (provider : EmbeddingProvider K)
    (c : Collection K) (hc : c.Consistent) (documents : List (Document K)) (concurrency : Int) :
    (AddDocuments provider c documents concurrency).1.Consistent := by
  unfold AddDocuments
  cases hres : resolveAll provider documents with
  | error e => exact hc
  | ok batch =>
    cases batch with
    | nil => exact hc
    | cons d ds =>
      simp only
      split
      · rename_i hall
        have hdim : ∀ x ∈ d :: ds,
            x.Embedding.length = c.dimension.getD d.Embedding.length := by
          intro x hx
          have := List.all_eq_true.mp hall x hx
          simpa using this
        have hold : ∀ x ∈ c.documents,
            x.Embedding.length = c.dimension.getD d.Embedding.length := by
          intro x hx
          rw [hc.2 x hx]; rfl
        have := foldl_upsert_inv
          (fun x => x.Embedding.length = c.dimension.getD d.Embedding.length)
          (d :: ds) c.documents hc.1 hold hdim
        refine ⟨this.1, ?_⟩
        intro x hx
        have hx2 := this.2 x hx
        simp only
        rw [hx2]
      · exact hc

/-- Adding a batch of distinct, fully embedded documents of one length to a new
collection stores exactly that batch. -/
theorem AddDocuments_new (provider : EmbeddingProvider K) (name : String) (md : StrMap)
    (docs : List (Document K)) (dim : Nat) (concurrency : Int) (h0 : docs ≠ [])
    (hne : ∀ x ∈ docs, x.Embedding ≠ [])
    (hlen : ∀ x ∈ docs, x.Embedding.length = dim)
    (hnd : (docs.map Document.ID).Nodup) :
    AddDocuments provider (newCollection name md) docs concurrency =
      ({ Name := name, Metadata := md, dimension := some dim, documents := docs }, none) := by
  cases docs with
  | nil => exact absurd rfl h0
  | cons d ds =>
    have hd : d.Embedding.length = dim := hlen d (List.mem_cons_self _ _)
    have hall : ((d :: ds).all fun x => x.Embedding.length == d.Embedding.length) = true := by
      rw [List.all_eq_true]
      intro x hx
      simpa [hd] using hlen x hx
    have hfold : (d :: ds).foldl upsert [] = d :: ds := by
      have := foldl_upsert_fresh (d :: ds) [] (by simpa using hnd)
      simpa using this
    unfold AddDocuments
    rw [resolveAll_supplied provider (d :: ds) hne]
    simp only [newCollection, Option.getD_none, hfold]
    rw [if_pos hall, hd]

theorem exampleCollection_eq [LinearOrderedField K] : (exampleCollection : Collection K) =
    { Name := "scenario", Metadata := [], dimension := some 4, documents := exampleDocuments } :=
  congrArg Prod.fst (AddDocuments_new none "scenario" [] exampleDocuments 4 1
    (by simp [exampleDocuments]) (by simp [exampleDocuments]) (by simp [exampleDocuments])
    (by simp [exampleDocuments, Demo03.documents, Demo04.createDocumentationSnippets]))

theorem demo01_collection_eq [LinearOrderedField K] : (Demo01.collection : Collection K) =
    { Name := "tech-concepts", Metadata := [], dimension := some 16,
      documents := Demo01.documents } :=
  congrArg Prod.fst (AddDocuments_new none _ _ Demo01.documents 16 1
    (by simp [Demo01.documents]) (by simp [Demo01.documents]) (by simp [Demo01.documents])
    (by simp [Demo01.documents]))

theorem demo03_collection_eq [LinearOrderedField K] : (Demo03.collection : Collection K) =
    { Name := "knowledge-base",
      Metadata := [("description", "Technical documentation snippets"), ("version", "1.0")],
      dimension := some 16, documents := Demo03.documents } :=
  congrArg Prod.fst (AddDocuments_new none _ _ Demo03.documents 16 1
    (by simp [Demo03.documents]) (by simp [Demo03.documents]) (by simp [Demo03.documents])
    (by simp [exampleDocuments, Demo03.documents, Demo04.createDocumentationSnippets]))

theorem demo04_collection_eq [LinearOrderedField K] : (Demo04.collection : Collection K) =
    { Name := "docs", Metadata := [], dimension := some 16,
      documents := Demo04.createDocumentationSnippets } :=
  congrArg Prod.fst (AddDocuments_new none _ _ Demo04.createDocumentationSnippets 16 1
    (by simp [Demo04.createDocumentationSnippets]) (by simp [Demo04.createDocumentationSnippets])
    (by simp [Demo04.createDocumentationSnippets]) (by simp [exampleDocuments, Demo03.documents, Demo04.createDocumentationSnippets]))

theorem newCollection_WF (name : String) (md : StrMap) :
    (newCollection name md : Collection K).WF :=
  ⟨List.nodup_nil, fun _ h => absurd h (List.not_mem_nil _)⟩

theorem exampleCollection_WF [LinearOrderedField K] : (exampleCollection : Collection K).WF :=
  AddDocuments_WF none (fun _ h => by simp at h) _ (newCollection_WF _ _) _ _

theorem demo01_collection_WF [LinearOrderedField K] : (Demo01.collection : Collection K).WF :=
  AddDocuments_WF none (fun _ h => by simp at h) _ (newCollection_WF _ _) _ _

theorem demo03_collection_WF [LinearOrderedField K] : (Demo03.collection : Collection K).WF :=
  AddDocuments_WF none (fun _ h => by simp at h) _ (newCollection_WF _ _) _ _

theorem demo04_collection_WF [LinearOrderedField K] : (Demo04.collection : Collection K).WF :=
  AddDocuments_WF none (fun _ h => by simp at h) _ (newCollection_WF _ _) _ _

end AddLemmas

/-! ## AddDocuments and Delete -/

section StoreClaims

variable {K : Type}

/-- C5, as amended: dimension guard.  For a collection whose dimensionality is
established, a batch whose embedding phase succeeds and which then holds a
document with an embedding of another length fails with `DimensionMismatch` and
returns the collection unchanged; in particular so does every batch whose
documents all carry an embedding, one of them of another length.  Whenever
`AddDocuments` fails, the collection it returns is the one it was given. -/
theorem AddDocuments_dimension_guard (provider : EmbeddingProvider K) (c : Collection K)
    (dim : Nat) (hdim : c.dimension = some dim) (batch : List (Document K))
    (concurrency : Int) :
    (∀ resolved, resolveAll provider batch = .ok resolved →
      (∃ d ∈ resolved, d.Embedding.length ≠ dim) →
        AddDocuments provider c batch concurrency = (c, some .DimensionMismatch)) ∧
    ((∀ d ∈ batch, d.Embedding ≠ []) → (∃ d ∈ batch, d.Embedding.length ≠ dim) →
      AddDocuments provider c batch concurrency = (c, some .DimensionMismatch)) ∧
    (∀ e, (AddDocuments provider c batch concurrency).2 = some e →
      (AddDocuments provider c batch concurrency).1 = c) := by
  have key : ∀ resolved, resolveAll provider batch = .ok resolved →
      (∃ d ∈ resolved, d.Embedding.length ≠ dim) →
        AddDocuments provider c batch concurrency = (c, some .DimensionMismatch) := by
    intro resolved hres ⟨d, hd, hbad⟩
    unfold AddDocuments
    rw [hres]
    cases resolved with
    | nil => exact absurd hd (List.not_mem_nil _)
    | cons r rs =>
      simp only [hdim, Option.getD_some]
      rw [if_neg]
      intro hall
      have := List.all_eq_true.mp hall d hd
      exact hbad (by simpa using this)
  refine ⟨key, ?_, ?_⟩
  · intro hne hbad
    exact key batch (resolveAll_supplied provider batch hne) hbad
  · intro e he
    unfold AddDocuments at he ⊢
    cases hres : resolveAll provider batch with
    | error e1 => rfl
    | ok resolved =>
      cases resolved with
      | nil => rfl
      | cons r rs =>
        simp only [hres] at he ⊢
        split
        · rename_i h; rw [if_pos h] at he; simp at he
        · rfl

theorem AddDocuments_dimension_guard_witness :
    AddDocuments none (exampleCollection : Collection ℝ)
      [ { ID := "D", Content := "", Embedding := [0, 0, 1, 0], Metadata := [] },
        { ID := "E", Content := "", Embedding := [1, 2], Metadata := [] } ] 1 =
      (exampleCollection, some .DimensionMismatch) :=
  (AddDocuments_dimension_guard none exampleCollection 4
    (by rw [exampleCollection_eq]) _ 1).2.1 (by simp)
    ⟨{ ID := "E", Content := "", Embedding := [1, 2], Metadata := [] }, by simp, by simp⟩

/-- C5, as stated, fails: a batch holding a document that lacks an embedding
(length 0, not the established 4) is embedded by the provider and committed;
with no provider the same batch fails with `EmbeddingProviderError`, not
`DimensionMismatch`. -/
theorem AddDocuments_dimension_guard_counterexample :
    (exampleCollection : Collection ℚ).dimension = some 4 ∧
    (∃ d ∈ [({ ID := "D", Content := "text", Embedding := [], Metadata := [] } : Document ℚ)],
      d.Embedding.length ≠ 4) ∧
    AddDocuments (some fun _ => some [0, 0, 1, 0]) (exampleCollection : Collection ℚ)
      [{ ID := "D", Content := "text", Embedding := [], Metadata := [] }] 1 =
      ({ Name := "scenario", Metadata := [], dimension := some 4,
         documents := exampleDocuments ++
           [{ ID := "D", Content := "text", Embedding := [0, 0, 1, 0], Metadata := [] }] },
        none) ∧
    AddDocuments none (exampleCollection : Collection ℚ)
      [{ ID := "D", Content := "text", Embedding := [], Metadata := [] }] 1 =
      (exampleCollection, some .EmbeddingProviderError) := by
  refine ⟨by rw [exampleCollection_eq], ⟨_, List.mem_singleton.mpr rfl, by simp⟩, ?_, ?_⟩
  · rw [exampleCollection_eq]; rfl
  · rfl

/-- C6: idempotent delete.  `Delete` never reports an error; for an ID that is
not present it returns the collection itself, so the mapping and `Count()` are
unchanged; and deleting the same ID a second time changes nothing. -/
theorem Delete_idempotent (c : Collection K) (id : String) :
    ((∀ d ∈ c.documents, d.ID ≠ id) →
      Delete c id = (c, none) ∧ Count (Delete c id).1 = Count c) ∧
    (Delete c id).2 = none ∧
    Delete (Delete c id).1 id = ((Delete c id).1, none) := by
  refine ⟨?_, rfl, ?_⟩
  · intro h
    have hf : c.documents.filter (fun d => d.ID != id) = c.documents := by
      rw [List.filter_eq_self]
      intro d hd
      simpa using h d hd
    have : Delete c id = (c, none) := by
      simp only [Delete, hf]
    exact ⟨this, by rw [this]⟩
  · simp [Delete, List.filter_filter]

theorem Delete_idempotent_witness :
    Delete (exampleCollection : Collection ℝ) "Z" = (exampleCollection, none) ∧
    Count (Delete (exampleCollection : Collection ℝ) "Z").1 = 3 ∧
    Count (Delete (exampleCollection : Collection ℝ) "A").1 = 2 ∧
    Delete (Delete (exampleCollection : Collection ℝ) "A").1 "A" =
      ((Delete (exampleCollection : Collection ℝ) "A").1, none) := by
  have h := Delete_idempotent (exampleCollection : Collection ℝ) "Z"
  have hZ : ∀ d ∈ (exampleCollection : Collection ℝ).documents, d.ID ≠ "Z" := by
    rw [exampleCollection_eq]; decide!
  refine ⟨(h.1 hZ).1, ?_, ?_, (Delete_idempotent (exampleCollection : Collection ℝ) "A").2.2⟩
  · rw [(h.1 hZ).2, exampleCollection_eq]; rfl
  · rw [exampleCollection_eq]; decide!

end StoreClaims

/-! ## FilterEngine -/

section Filters

open FilterEngine

variable {K : Type}

theorem startsWith_iff (p s : List UInt8) : startsWith p s = true ↔ p <+: s := by
  induction p generalizing s with
  | nil => simp [startsWith]
  | cons a as ih =>
    cases s with
    | nil => simp [startsWith]
    | cons b bs => simp [startsWith, ih, List.cons_prefix_cons]

theorem containsBytes_iff (sub s : List UInt8) : containsBytes sub s = true ↔ sub <:+: s := by
  induction s with
  | nil => simp [containsBytes, List.isEmpty_iff]
  | cons c cs ih =>
    simp [containsBytes, startsWith_iff, ih, List.infix_cons_iff]

theorem passes_iff (d : Document K) (mf cf : StrMap) :
    passes d mf cf = true ↔
      (∀ kv ∈ mf, d.Metadata.lookup kv.1 = some kv.2) ∧
        (∀ kv ∈ cf, contains d.Content kv.2 = true) := by
  simp [passes, matchesMetadata, List.all_eq_true]

theorem passes_empty (d : Document K) : passes d [] [] = true := by
  simp [passes, matchesMetadata]

end Filters

/-! ## QueryEmbedding -/

section Query

open FilterEngine VectorMath

variable {K : Type} [LinearOrderedField K]

theorem scoredMatches_ids (sqrt : K → K) (c : Collection K) (q : List K) (mf cf : StrMap) :
    (scoredMatches sqrt c q mf cf).map Result.ID = (matching c mf cf).map Document.ID := by
  simp [scoredMatches, Document.toResult, Function.comp_def]

theorem QueryEmbedding_ranked (sqrt : K → K) (c : Collection K) (hwf : c.WF)
    (q : List K) (hq : c.dimension = some q.length) (mf cf : StrMap)
    (hcf : validContentFilter cf = true) (nResults : Int) (h1 : 1 ≤ nResults) :
    (rankAll (scoredMatches sqrt c q mf cf)).Perm (scoredMatches sqrt c q mf cf) ∧
      (rankAll (scoredMatches sqrt c q mf cf)).Pairwise
        (fun a b => b.Similarity < a.Similarity ∨
          (a.Similarity = b.Similarity ∧ a.ID < b.ID)) ∧
      QueryEmbedding sqrt c q nResults mf cf =
        .ok ((rankAll (scoredMatches sqrt c q mf cf)).take nResults.toNat) := by
  refine ⟨?_, ?_, QueryEmbedding_eq sqrt c hwf q hq nResults h1 mf cf hcf⟩
  · simpa [rankAll] using perm_foldl_insertRanked (scoredMatches sqrt c q mf cf) []
  · have hnd : (([] ++ scoredMatches sqrt c q mf cf).map Result.ID).Nodup := by
      rw [List.nil_append, scoredMatches_ids]
      exact (hwf.1).sublist (List.Sublist.map _ (List.filter_sublist _))
    have := pairwise_foldl_insertRanked (scoredMatches sqrt c q mf cf) [] List.Pairwise.nil hnd
    exact this.imp fun {a b} h => (ranksBefore_iff a b).mp h

/-- C1: Top-K correctness of `QueryEmbedding`.  For a collection satisfying its
invariant, a query embedding of the collection's dimensionality, any metadata
filter, any recognised content filter and `1 ≤ nResults ≤ |matching documents|`,
the call succeeds and returns the first `nResults` elements of a list `ranked`
that is a rearrangement of the matching documents with their cosine similarity
to the query, ordered by similarity descending and, among equal similarities,
by ascending ID; it has exactly `nResults` elements. -/
theorem QueryEmbedding_topK (sqrt : K → K) (c : Collection K) (hwf : c.WF)
    (q : List K) (hq : c.dimension = some q.length) (mf cf : StrMap)
    (hcf : validContentFilter cf = true) (nResults : Int) (h1 : 1 ≤ nResults)
    (hn : nResults ≤ (matching c mf cf).length) :
    ∃ ranked : List (Result K),
      ranked.Perm (scoredMatches sqrt c q mf cf) ∧
      ranked.Pairwise (fun a b => b.Similarity < a.Similarity ∨
        (a.Similarity = b.Similarity ∧ a.ID < b.ID)) ∧
      QueryEmbedding sqrt c q nResults mf cf = .ok (ranked.take nResults.toNat) ∧
      ((ranked.take nResults.toNat).length : Int) = nResults := by
  obtain ⟨hp, hs, he⟩ := QueryEmbedding_ranked sqrt c hwf q hq mf cf hcf nResults h1
  refine ⟨_, hp, hs, he, ?_⟩
  have hlen : (rankAll (scoredMatches sqrt c q mf cf)).length = (matching c mf cf).length := by
    rw [hp.length_eq]; simp [scoredMatches]
  rw [List.length_take, hlen]
  omega


theorem QueryEmbedding_topK_witness :
    ∃ ranked : List (Result ℝ),
      ranked.Perm (scoredMatches Real.sqrt Demo01.collection Demo01.queryEmbedding [] []) ∧
      ranked.Pairwise (fun a b => b.Similarity < a.Similarity ∨
        (a.Similarity = b.Similarity ∧ a.ID < b.ID)) ∧
      QueryEmbedding Real.sqrt Demo01.collection Demo01.queryEmbedding 5 [] [] =
        .ok (ranked.take 5) ∧
      ((ranked.take 5).length : Int) = 5 :=
  QueryEmbedding_topK Real.sqrt Demo01.collection demo01_collection_WF Demo01.queryEmbedding
    (by rw [demo01_collection_eq]; rfl) [] [] rfl 5 (by decide)
    (by rw [demo01_collection_eq]; decide!)

/-- C2: too few matching documents is never an error.  For `nResults ≥ 1` the
call succeeds with the first `nResults` elements of the ranked matching
documents; the result has `min(nResults, |matching|)` elements, at most
`nResults`, and when fewer than `nResults` documents match it is the whole
ranked list of matching documents. -/
theorem QueryEmbedding_few_matches (sqrt : K → K) (c : Collection K) (hwf : c.WF)
    (q : List K) (hq : c.dimension = some q.length) (mf cf : StrMap)
    (hcf : validContentFilter cf = true) (nResults : Int) (h1 : 1 ≤ nResults) :
    ∃ ranked : List (Result K),
      ranked.Perm (scoredMatches sqrt c q mf cf) ∧
      ranked.Pairwise (fun a b => b.Similarity < a.Similarity ∨
        (a.Similarity = b.Similarity ∧ a.ID < b.ID)) ∧
      QueryEmbedding sqrt c q nResults mf cf = .ok (ranked.take nResults.toNat) ∧
      ((ranked.take nResults.toNat).length : Int) = min nResults (matching c mf cf).length ∧
      ((ranked.take nResults.toNat).length : Int) ≤ nResults ∧
      (((matching c mf cf).length : Int) < nResults → ranked.take nResults.toNat = ranked) := by
  obtain ⟨hp, hs, he⟩ := QueryEmbedding_ranked sqrt c hwf q hq mf cf hcf nResults h1
  have hlen : (rankAll (scoredMatches sqrt c q mf cf)).length = (matching c mf cf).length := by
    rw [hp.length_eq]; simp [scoredMatches]
  refine ⟨_, hp, hs, he, ?_, ?_, ?_⟩
  · rw [List.length_take, hlen]; omega
  · rw [List.length_take, hlen]; omega
  · intro hlt
    apply List.take_of_length_le
    rw [hlen]; omega

theorem QueryEmbedding_few_matches_witness :
    (∃ r : List (Result ℝ),
      QueryEmbedding Real.sqrt Demo03.collection Demo03.queryEmbedding2 5
        [("difficulty", "beginner")] [] = .ok r ∧ r.length = 2) ∧
    (∃ r : List (Result ℝ),
      QueryEmbedding Real.sqrt Demo04.collection Demo04.dockerQuery 10
        [] [("$contains", "Docker")] = .ok r ∧ r.length = 1) := by
  constructor
  · obtain ⟨ranked, _, _, he, hl, _, _⟩ :=
      QueryEmbedding_few_matches Real.sqrt Demo03.collection demo03_collection_WF
        Demo03.queryEmbedding2 (by rw [demo03_collection_eq]; rfl)
        [("difficulty", "beginner")] [] rfl 5 (by decide)
    refine ⟨_, he, ?_⟩
    have hm : (matching (Demo03.collection : Collection ℝ)
        [("difficulty", "beginner")] []).length = 2 := by
      rw [demo03_collection_eq]; decide!
    rw [hm] at hl
    exact_mod_cast hl
  · obtain ⟨ranked, _, _, he, hl, _, _⟩ :=
      QueryEmbedding_few_matches Real.sqrt Demo04.collection demo04_collection_WF
        Demo04.dockerQuery (by rw [demo04_collection_eq]; rfl)
        [] [("$contains", "Docker")] rfl 10 (by decide)
    refine ⟨_, he, ?_⟩
    have hm : (matching (Demo04.collection : Collection ℝ)
        [] [("$contains", "Docker")]).length = 1 := by
      rw [demo04_collection_eq]; decide!
    rw [hm] at hl
    exact_mod_cast hl

/-- C3: filter conjunction.  The call succeeds, and every returned result is the
record of a stored document which has every key of the metadata filter in its
Metadata with exactly the filter's value and whose Content contains the
substring of every `$contains` entry; with empty filters nothing is excluded:
when `nResults` is at least the document count, every stored document is in the
result. -/
theorem QueryEmbedding_filter_conjunction (sqrt : K → K) (c : Collection K) (hwf : c.WF)
    (q : List K) (hq : c.dimension = some q.length) (mf cf : StrMap)
    (hcf : validContentFilter cf = true) (nResults : Int) (h1 : 1 ≤ nResults) :
    (∃ results, QueryEmbedding sqrt c q nResults mf cf = .ok results ∧
      ∀ x ∈ results,
        (∃ d ∈ c.documents, x = d.toResult (cosine sqrt q d.Embedding)) ∧
        (∀ kv ∈ mf, x.Metadata.lookup kv.1 = some kv.2) ∧
        (∀ kv ∈ cf, contains x.Content kv.2 = true)) ∧
    (∃ results, QueryEmbedding sqrt c q nResults [] [] = .ok results ∧
      ((Count c : Int) ≤ nResults →
        ∀ d ∈ c.documents, d.toResult (cosine sqrt q d.Embedding) ∈ results)) := by
  constructor
  · obtain ⟨hp, _, he⟩ := QueryEmbedding_ranked sqrt c hwf q hq mf cf hcf nResults h1
    refine ⟨_, he, ?_⟩
    intro x hx
    have hx1 : x ∈ scoredMatches sqrt c q mf cf := hp.mem_iff.mp (List.mem_of_mem_take hx)
    obtain ⟨d, hd, rfl⟩ := List.mem_map.mp hx1
    obtain ⟨hdc, hpass⟩ := List.mem_filter.mp hd
    have := (passes_iff d mf cf).mp hpass
    exact ⟨⟨d, hdc, rfl⟩, this.1, this.2⟩
  · obtain ⟨hp, _, he⟩ := QueryEmbedding_ranked sqrt c hwf q hq [] [] rfl nResults h1
    refine ⟨_, he, ?_⟩
    intro hcount d hd
    have hall : matching c [] [] = c.documents := by
      simp [matching, passes_empty]
    have hlen : (rankAll (scoredMatches sqrt c q [] [])).length ≤ nResults.toNat := by
      rw [hp.length_eq]
      simp only [scoredMatches, List.length_map, hall]
      simp only [Count] at hcount
      omega
    rw [List.take_of_length_le hlen]
    apply hp.mem_iff.mpr
    simp only [scoredMatches, hall]
    exact List.mem_map_of_mem _ hd

theorem QueryEmbedding_filter_conjunction_witness :
    ∃ results : List (Result ℝ),
      QueryEmbedding Real.sqrt Demo04.collection Demo04.backendQuery 3
        [("category", "backend")] [] = .ok results ∧
      results.length = 3 ∧
      ∀ x ∈ results, x.Metadata.lookup "category" = some "backend" ∧
        x.ID ∈ ["be-001", "be-002", "be-003", "be-004"] := by
  obtain ⟨⟨results, he, hall⟩, _⟩ :=
    QueryEmbedding_filter_conjunction Real.sqrt Demo04.collection demo04_collection_WF
      Demo04.backendQuery (by rw [demo04_collection_eq]; rfl)
      [("category", "backend")] [] rfl 3 (by decide)
  refine ⟨results, he, ?_, ?_⟩
  · obtain ⟨hp, _, he2⟩ := QueryEmbedding_ranked Real.sqrt Demo04.collection
      demo04_collection_WF Demo04.backendQuery (by rw [demo04_collection_eq]; rfl)
      [("category", "backend")] [] rfl 3 (by decide)
    have hr := he.symm.trans he2
    simp only [Except.ok.injEq] at hr
    have hm : (matching (Demo04.collection : Collection ℝ)
        [("category", "backend")] []).length = 4 := by
      rw [demo04_collection_eq]; decide!
    rw [hr, List.length_take, hp.length_eq]
    simp [scoredMatches, hm]
  · intro x hx
    obtain ⟨⟨d, hd, rfl⟩, hm, _⟩ := hall x hx
    refine ⟨hm ("category", "backend") (List.mem_singleton.mpr rfl), ?_⟩
    have hm2 : d.Metadata.lookup "category" = some "backend" :=
      hm ("category", "backend") (List.mem_singleton.mpr rfl)
    have hids : ∀ d ∈ (Demo04.createDocumentationSnippets : List (Document ℝ)),
        d.Metadata.lookup "category" = some "backend" →
          d.ID ∈ ["be-001", "be-002", "be-003", "be-004"] := by
      decide!
    rw [demo04_collection_eq] at hd
    exact hids d hd hm2

/-- C4: content filter.  With the filter `$contains: s`, `matchesContent` answers
and answers yes exactly when the bytes of `s` occur contiguously in the bytes of
the Content; the comparison is case-sensitive (`api` is not found in
`REST APIs`); with no content filter every document matches.  Over the
documents of demo 04 the filter `Docker` selects exactly `do-001`, and over those
of demo 03 the filter `API` selects exactly `doc-004`. -/
theorem matchesContent_contains :
    (∀ (K : Type) (d : Document K) (s : String),
      ∃ b, matchesContent d [("$contains", s)] = .ok b ∧
        (b = true ↔ bytes s <:+: bytes d.Content)) ∧
    (∀ (K : Type) (d : Document K), matchesContent d [] = .ok true) ∧
    contains "REST APIs" "api" = false ∧
    ((Demo04.createDocumentationSnippets : List (Document ℝ)).filter
        (fun d => selects d [("$contains", "Docker")])).map Document.ID
      = ["do-001"] ∧
    ((Demo03.documents : List (Document ℝ)).filter
        (fun d => selects d [("$contains", "API")])).map Document.ID
      = ["doc-004"] := by
  refine ⟨?_, ?_, by decide!, ?_, ?_⟩
  · intro K d s
    refine ⟨contains d.Content s, by simp [matchesContent], ?_⟩
    simp [contains, containsBytes_iff]
  · intro K d; rfl
  · decide!
  · decide!

end Query

/-! ## Persistence -/

section PersistLemmas

variable {K : Type} {R : Type}

theorem map_upsert (codec : Codec K R) (docs : List (Document K)) (d : Document K) :
    (upsert docs d).map (fun x => (x.ID, codec.encode x)) =
      writeRecord (docs.map fun x => (x.ID, codec.encode x)) (d.ID, codec.encode d) := by
  induction docs with
  | nil => rfl
  | cons y ys ih =>
    unfold upsert
    by_cases h : y.ID = d.ID
    · simp [writeRecord, h]
    · simp [writeRecord, h, ih]

theorem map_foldl_upsert (codec : Codec K R) (batch docs : List (Document K)) :
    (batch.foldl upsert docs).map (fun x => (x.ID, codec.encode x)) =
      batch.foldl (fun rs d => writeRecord rs (d.ID, codec.encode d))
        (docs.map fun x => (x.ID, codec.encode x)) := by
  induction batch generalizing docs with
  | nil => rfl
  | cons b bs ih =>
    simp only [List.foldl_cons]
    rw [ih, map_upsert]

theorem AddDocuments_ok (provider : EmbeddingProvider K) (c c1 : Collection K)
    (documents : List (Document K)) (concurrency : Int)
    (h : AddDocuments provider c documents concurrency = (c1, none)) :
    ∃ batch, resolveAll provider documents = .ok batch ∧
      c1.Name = c.Name ∧ c1.Metadata = c.Metadata ∧
      c1.documents = batch.foldl upsert c.documents ∧
      (batch = [] → c1.dimension = c.dimension) := by
  unfold AddDocuments at h
  cases hres : resolveAll provider documents with
  | error e => simp [hres] at h
  | ok batch =>
    refine ⟨batch, rfl, ?_⟩
    cases batch with
    | nil =>
      simp only [hres, Prod.mk.injEq, and_true] at h
      subst h
      exact ⟨rfl, rfl, rfl, fun _ => rfl⟩
    | cons d ds =>
      simp only [hres] at h
      split at h
      · simp only [Prod.mk.injEq, and_true] at h
        subst h
        exact ⟨rfl, rfl, rfl, fun hnil => by simp at hnil⟩
      · simp at h

theorem AddDocuments_error_unchanged (provider : EmbeddingProvider K) (c : Collection K)
    (batch : List (Document K)) (concurrency : Int) (e : EngineError)
    (he : (AddDocuments provider c batch concurrency).2 = some e) :
    (AddDocuments provider c batch concurrency).1 = c := by
  unfold AddDocuments at he ⊢
  cases hres : resolveAll provider batch with
  | error e1 => rfl
  | ok resolved =>
    cases resolved with
    | nil => rfl
    | cons r rs =>
      simp only [hres] at he ⊢
      split
      · rename_i h; rw [if_pos h] at he; simp at he
      · rfl

theorem persistentAdd_inSync (codec : Codec K R) (provider : EmbeddingProvider K)
    (s : Collection K × CollectionDir R) (hs : inSync codec s)
    (documents : List (Document K)) (concurrency : Int) :
    inSync codec (persistentAdd codec provider s documents concurrency).1 ∧
      ((persistentAdd codec provider s documents concurrency).1.1 =
        (AddDocuments provider s.1 documents concurrency).1) := by
  unfold persistentAdd
  cases hadd : AddDocuments provider s.1 documents concurrency with
  | mk c1 err =>
    cases err with
    | some e =>
      simp only
      refine ⟨hs, ?_⟩
      have := AddDocuments_error_unchanged provider s.1 documents concurrency e (by rw [hadd])
      rw [hadd] at this
      exact this.symm
    | none =>
      obtain ⟨batch, hres, hn, hm, hd, _⟩ :=
        AddDocuments_ok provider s.1 c1 documents concurrency hadd
      simp only [hres]
      refine ⟨⟨?_, ?_, ?_, ?_⟩, ?_⟩
      · simp only; rw [hs.1, hn]
      · simp only; rw [hs.2.1, hm]
      · rfl
      · simp only
        rw [hd, map_foldl_upsert, hs.2.2.2]
      · trivial

theorem populate_inSync (codec : Codec K R) (provider : EmbeddingProvider K)
    (calls : List (List (Document K) × Int)) :
    ∀ s : Collection K × CollectionDir R, inSync codec s → s.1.Consistent →
      inSync codec (populate codec provider s calls) ∧
        (populate codec provider s calls).1.Consistent := by
  induction calls with
  | nil => intro s hs hc; exact ⟨hs, hc⟩
  | cons call rest ih =>
    intro s hs hc
    have h := persistentAdd_inSync codec provider s hs call.1 call.2
    simp only [populate, List.foldl_cons]
    apply ih _ h.1
    rw [h.2]
    exact AddDocuments_consistent provider s.1 hc call.1 call.2

theorem decodeAll_eq (codec : Codec K R) (l : List (String × R))
    (h : ∀ r ∈ l, ∃ d, codec.decode r.2 = some d) :
    decodeAll codec l = some (l.filterMap fun r => codec.decode r.2) := by
  induction l with
  | nil => rfl
  | cons r rs ih =>
    obtain ⟨d, hd⟩ := h r (List.mem_cons_self _ _)
    have := ih fun x hx => h x (List.mem_cons_of_mem _ hx)
    simp [decodeAll, hd, this, List.filterMap_cons]

theorem decodeAll_listing (codec : Codec K R)
    (hcodec : ∀ d, codec.decode (codec.encode d) = some d)
    (docs : List (Document K)) (listing : List (String × R))
    (hl : listing.Perm (docs.map fun d => (d.ID, codec.encode d))) :
    ∃ loaded, decodeAll codec listing = some loaded ∧ loaded.Perm docs := by
  refine ⟨_, decodeAll_eq codec listing ?_, ?_⟩
  · intro r hr
    obtain ⟨d, _, rfl⟩ := List.mem_map.mp (hl.mem_iff.mp hr)
    exact ⟨d, hcodec d⟩
  · have h1 := hl.filterMap fun r => codec.decode r.2
    have h2 : (docs.map fun d => (d.ID, codec.encode d)).filterMap
        (fun r => codec.decode r.2) = docs := by
      rw [List.filterMap_map]
      have : ((fun r : String × R => codec.decode r.2) ∘ fun d => (d.ID, codec.encode d)) = some := by
        funext d; exact hcodec d
      rw [this, List.filterMap_some]
    rw [h2] at h1
    exact h1

end PersistLemmas

section PersistClaims

open FilterEngine VectorMath

variable {K : Type} [LinearOrderedField K] {R : Type}

theorem ranksBefore_asymm {x y : Result K} (hxy : ranksBefore x y = true)
    (hyx : ranksBefore y x = true) : False := by
  rw [ranksBefore_iff] at hxy hyx
  rcases hxy with h1 | ⟨h1, h2⟩ <;> rcases hyx with h3 | ⟨h3, h4⟩
  · exact lt_asymm h1 h3
  · exact absurd h3 (ne_of_lt h1)
  · exact absurd h1 (ne_of_lt h3)
  · exact lt_asymm h2 h4

theorem rankAll_perm {xs ys : List (Result K)} (hp : xs.Perm ys)
    (hnd : (xs.map Result.ID).Nodup) : rankAll xs = rankAll ys := by
  haveI : IsAntisymm (Result K) (fun a b => ranksBefore a b = true) :=
    ⟨fun a b hab hba => (ranksBefore_asymm hab hba).elim⟩
  have hx := pairwise_foldl_insertRanked xs [] List.Pairwise.nil (by simpa using hnd)
  have hy := pairwise_foldl_insertRanked ys [] List.Pairwise.nil
    (by simpa using ((hp.map Result.ID).nodup_iff.mp hnd))
  have hpx := perm_foldl_insertRanked xs []
  have hpy := perm_foldl_insertRanked ys []
  simp only [List.nil_append] at hpx hpy
  exact List.eq_of_perm_of_sorted (hpx.trans (hp.trans hpy.symm)) hx hy

omit [LinearOrderedField K] in
theorem matchesContent_invalid (d : Document K) (cf : StrMap)
    (hcf : validContentFilter cf = false) :
    matchesContent d cf = .error .InvalidFilter := by
  induction cf with
  | nil => simp [validContentFilter] at hcf
  | cons kv rest ih =>
    unfold matchesContent
    by_cases hk : kv.1 = "$contains"
    · have hrest : validContentFilter rest = false := by
        simpa [validContentFilter, hk] using hcf
      simp [hk, ih hrest]
    · simp [hk]

theorem scan_invalid (sqrt : K → K) (q : List K) (n : Nat) (mf cf : StrMap)
    (hcf : validContentFilter cf = false) (d : Document K) (ds : List (Document K))
    (top : List (Result K)) :
    scan sqrt q n mf cf (d :: ds) top = .error .InvalidFilter := by
  rw [scan, matchesContent_invalid d cf hcf]

theorem scan_empty_query (sqrt : K → K) (n : Nat) (mf cf : StrMap)
    (hcf : validContentFilter cf = true) (docs : List (Document K))
    (top : List (Result K)) :
    scan sqrt [] n mf cf docs top =
      if docs.any (fun d => passes d mf cf) then .error .DimensionMismatch else .ok top := by
  induction docs generalizing top with
  | nil => rfl
  | cons d ds ih =>
    rw [scan, matchesContent_valid d cf hcf]
    by_cases hp : passes d mf cf = true
    · have hp2 := hp
      simp only [passes] at hp2
      simp [hp2, hp, cosineSimilarity]
    · have hp2 := hp
      simp only [passes] at hp2
      simp only [hp2]
      rw [ih]
      simp [hp]

/-- The answer of `QueryEmbedding` does not depend on the order in which the
mapping holds its documents. -/
theorem QueryEmbedding_perm (sqrt : K → K) (c c2 : Collection K) (hc : c.Consistent)
    (hdocs : c2.documents.Perm c.documents) (hdim : c2.dimension = c.dimension)
    (q : List K) (nResults : Int) (mf cf : StrMap) :
    QueryEmbedding sqrt c2 q nResults mf cf = QueryEmbedding sqrt c q nResults mf cf := by
  by_cases he : c.documents = []
  · have he2 : c2.documents = [] := by
      rw [he] at hdocs; exact List.Perm.eq_nil hdocs
    simp [QueryEmbedding, he, he2]
  · have he2 : c2.documents ≠ [] := by
      intro h; rw [h] at hdocs; exact he (List.Perm.eq_nil hdocs.symm)
    by_cases hg : nResults < 1 ∨ c.dimension ≠ some q.length
    · have hg2 : nResults < 1 ∨ c2.dimension ≠ some q.length := by rw [hdim]; exact hg
      simp only [QueryEmbedding, List.isEmpty_iff, he, he2, if_false, if_pos hg, if_pos hg2]
    · have hg2 : ¬ (nResults < 1 ∨ c2.dimension ≠ some q.length) := by
        rw [hdim]; exact hg
      have hg1 := hg
      push_neg at hg
      cases hcf : validContentFilter cf with
      | true =>
        cases q with
        | nil =>
          simp only [QueryEmbedding, List.isEmpty_iff, he, he2, if_false, if_neg hg1,
            if_neg hg2, scan_empty_query sqrt _ mf cf hcf]
          have hany : (c2.documents.any fun d => passes d mf cf) =
              (c.documents.any fun d => passes d mf cf) := by
            rw [Bool.eq_iff_iff, List.any_eq_true, List.any_eq_true]
            exact ⟨fun ⟨x, hx, h⟩ => ⟨x, hdocs.mem_iff.mp hx, h⟩,
              fun ⟨x, hx, h⟩ => ⟨x, hdocs.mem_iff.mpr hx, h⟩⟩
          rw [hany]
        | cons q0 qs =>
          have hwf : c.WF := by
            refine ⟨hc.1, fun x hx => ⟨?_, hc.2 x hx⟩⟩
            intro hnil
            have h1 := hc.2 x hx
            rw [hg.2, hnil] at h1
            simp at h1
          have hwf2 : c2.WF := by
            refine ⟨(hdocs.map Document.ID).nodup_iff.mpr hwf.1, ?_⟩
            intro x hx
            rw [hdim]
            exact hwf.2 x (hdocs.mem_iff.mp hx)
          rw [QueryEmbedding_eq sqrt c hwf _ hg.2 nResults hg.1 mf cf hcf,
            QueryEmbedding_eq sqrt c2 hwf2 _ (hdim.trans hg.2) nResults hg.1 mf cf hcf]
          have hperm : (scoredMatches sqrt c2 (q0 :: qs) mf cf).Perm
              (scoredMatches sqrt c (q0 :: qs) mf cf) :=
            (hdocs.filter _).map _
          have hnd : ((scoredMatches sqrt c2 (q0 :: qs) mf cf).map Result.ID).Nodup := by
            rw [scoredMatches_ids]
            exact (hwf2.1).sublist (List.Sublist.map _ (List.filter_sublist _))
          rw [rankAll_perm hperm hnd]
      | false =>
        obtain ⟨d, ds, hc⟩ := List.exists_cons_of_ne_nil he
        obtain ⟨d2, ds2, hc2⟩ := List.exists_cons_of_ne_nil he2
        simp only [QueryEmbedding, List.isEmpty_iff, he, he2, if_false, if_neg hg1, if_neg hg2]
        rw [hc, hc2, scan_invalid sqrt q _ mf cf hcf, scan_invalid sqrt q _ mf cf hcf]

/-- C7: persistence round trip.  For a record format that round-trips documents,
a collection populated by any sequence of `AddDocuments` calls on a fresh
persistent collection, and any order in which its directory is listed,
reopening succeeds and yields a collection with the same documents (each equal
in ID, Content, Embedding and Metadata), the same dimensionality, name and
metadata; `QueryEmbedding` with identical arguments then returns the identical
answer before and after the reload. -/
theorem persistence_round_trip (codec : Codec K R)
    (hcodec : ∀ d, codec.decode (codec.encode d) = some d)
    (provider : EmbeddingProvider K)
    (name : String) (metadata : StrMap) (calls : List (List (Document K) × Int))
    (s : Collection K × CollectionDir R)
    (hs : s = populate codec provider (newCollection name metadata, newDir name metadata) calls)
    (listing : List (String × R)) (hl : listing.Perm s.2.records) :
    ∃ reopened,
      openCollection codec (relist s.2 listing) = .ok reopened ∧
      reopened.documents.Perm s.1.documents ∧
      reopened.dimension = s.1.dimension ∧
      reopened.Name = s.1.Name ∧
      reopened.Metadata = s.1.Metadata ∧
      ∀ (sqrt : K → K) (q : List K) (nResults : Int) (mf cf : StrMap),
        QueryEmbedding sqrt reopened q nResults mf cf =
          QueryEmbedding sqrt s.1 q nResults mf cf := by
  obtain ⟨hsync, hwf⟩ := populate_inSync codec provider calls
    (newCollection name metadata, newDir name metadata)
    ⟨rfl, rfl, rfl, rfl⟩ ⟨List.nodup_nil, fun _ h => absurd h (List.not_mem_nil _)⟩
  rw [← hs] at hsync hwf
  rw [hsync.2.2.2] at hl
  obtain ⟨loaded, hdec, hperm⟩ := decodeAll_listing codec hcodec _ listing hl
  refine ⟨{ Name := s.2.name, Metadata := s.2.metadata, dimension := s.2.dimension,
            documents := loaded }, ?_, hperm, hsync.2.2.1, hsync.1, hsync.2.1, ?_⟩
  · simp only [openCollection, relist, hdec]
  · intro sqrt q nResults mf cf
    exact QueryEmbedding_perm sqrt _ _ hwf hperm hsync.2.2.1 q nResults mf cf

theorem demo03_persisted_fst : (Demo03.persisted : _ × CollectionDir (Document K)).1 =
    Demo03.collection :=
  (persistentAdd_inSync (plainCodec K) none _ ⟨rfl, rfl, rfl, rfl⟩ Demo03.documents 1).2

theorem persistence_round_trip_witness :
    ∃ reopened : Collection ℝ,
      openCollection (plainCodec ℝ)
        (relist Demo03.persisted.2 Demo03.persisted.2.records.reverse) = .ok reopened ∧
      reopened.documents.Perm Demo03.collection.documents ∧
      QueryEmbedding Real.sqrt reopened Demo03.queryEmbedding 2 [] [] =
        QueryEmbedding Real.sqrt Demo03.collection Demo03.queryEmbedding 2 [] [] := by
  obtain ⟨reopened, hopen, hperm, _, _, _, hq⟩ :=
    persistence_round_trip (plainCodec ℝ) (fun _ => rfl) none "knowledge-base"
      [("description", "Technical documentation snippets"), ("version", "1.0")]
      [(Demo03.documents, 1)] Demo03.persisted rfl
      Demo03.persisted.2.records.reverse (List.reverse_perm _)
  rw [demo03_persisted_fst] at hperm
  refine ⟨reopened, hopen, hperm, ?_⟩
  rw [hq, demo03_persisted_fst]

end PersistClaims

/-! ## Demo 02: cosineSimilarity -/

section Demo02Claims

open Demo02

variable {K : Type} [LinearOrderedField K]

theorem cosineLoop_zero_left (a : List K) (ha : ∀ x ∈ a, x = 0) :
    ∀ (b : List K) (acc : K × K × K), a.length ≤ b.length →
      ∃ nb, cosineLoop a b acc = .ok (acc.1, acc.2.1, nb) := by
  induction a with
  | nil => intro b acc _; exact ⟨acc.2.2, rfl⟩
  | cons x xs ih =>
    intro b acc hlen
    cases b with
    | nil => simp at hlen
    | cons y ys =>
      obtain ⟨d, na, nb⟩ := acc
      have hx : x = 0 := ha x (List.mem_cons_self _ _)
      obtain ⟨nb1, h⟩ := ih (fun z hz => ha z (List.mem_cons_of_mem _ hz)) ys
        (d + x * y, na + x * x, nb + y * y) (by simpa using hlen)
      refine ⟨nb1, ?_⟩
      rw [cosineLoop, h]
      simp [hx]

theorem cosineLoop_zero_right (b : List K) (hb : ∀ y ∈ b, y = 0) :
    ∀ (a : List K) (acc : K × K × K), a.length ≤ b.length →
      ∃ na, cosineLoop a b acc = .ok (acc.1, na, acc.2.2) := by
  induction b with
  | nil =>
    intro a acc hlen
    have : a = [] := List.length_eq_zero.mp (Nat.le_zero.mp hlen)
    subst this
    exact ⟨acc.2.1, rfl⟩
  | cons y ys ih =>
    intro a acc hlen
    cases a with
    | nil => exact ⟨acc.2.1, rfl⟩
    | cons x xs =>
      obtain ⟨d, na, nb⟩ := acc
      have hy : y = 0 := hb y (List.mem_cons_self _ _)
      obtain ⟨na1, h⟩ := ih (fun z hz => hb z (List.mem_cons_of_mem _ hz)) xs
        (d + x * y, na + x * x, nb + y * y) (by simpa using hlen)
      refine ⟨na1, ?_⟩
      rw [cosineLoop, h]
      simp [hy]

theorem cosineLoop_take (a : List K) :
    ∀ (b : List K) (acc : K × K × K), a.length ≤ b.length →
      cosineLoop a b acc = cosineLoop a (b.take a.length) acc ∧
        ∃ r, cosineLoop a b acc = .ok r := by
  induction a with
  | nil => intro b acc _; exact ⟨rfl, acc, rfl⟩
  | cons x xs ih =>
    intro b acc hlen
    cases b with
    | nil => simp at hlen
    | cons y ys =>
      obtain ⟨d, na, nb⟩ := acc
      have := ih ys (d + x * y, na + x * x, nb + y * y) (by simpa using hlen)
      simp only [List.length_cons, List.take_succ_cons, cosineLoop]
      exact this

theorem cosineLoop_short (a : List K) :
    ∀ (b : List K) (acc : K × K × K), b.length < a.length →
      cosineLoop a b acc = .error .indexOutOfRange := by
  induction a with
  | nil => intro b acc h; simp at h
  | cons x xs ih =>
    intro b acc hlen
    cases b with
    | nil => rfl
    | cons y ys =>
      obtain ⟨d, na, nb⟩ := acc
      rw [cosineLoop]
      exact ih ys _ (by simpa using hlen)

/-- C9, as amended: zero-norm vectors.  `cosineSimilarity` has no zero-norm
guard: for equal-length vectors of which one is all zeros it does not panic, and
what it returns is the NaN of `0 / 0`, not the value `0`. -/
theorem cosineSimilarity_zero_norm (sqrt : K → K) (hs : sqrt 0 = 0) (a b : List K)
    (hlen : a.length = b.length) (hz : (∀ x ∈ a, x = 0) ∨ (∀ y ∈ b, y = 0)) :
    cosineSimilarity sqrt a b = .ok .nan := by
  unfold cosineSimilarity
  rcases hz with ha | hb
  · obtain ⟨nb, h⟩ := cosineLoop_zero_left a ha b (0, 0, 0) (le_of_eq hlen)
    rw [h]
    simp [fdiv, hs]
  · obtain ⟨na, h⟩ := cosineLoop_zero_right b hb a (0, 0, 0) (le_of_eq hlen)
    rw [h]
    simp [fdiv, hs]

theorem cosineSimilarity_zero_norm_witness :
    cosineSimilarity Real.sqrt [0, 0] [1, 2] = .ok .nan ∧
    cosineSimilarity Real.sqrt [3, 4] [0, 0] = .ok .nan :=
  ⟨cosineSimilarity_zero_norm Real.sqrt Real.sqrt_zero [0, 0] [1, 2] rfl (Or.inl (by simp)),
   cosineSimilarity_zero_norm Real.sqrt Real.sqrt_zero [3, 4] [0, 0] rfl (Or.inr (by simp))⟩

/-- C9, as stated, fails: for `a = [0, 0]` and `b = [1, 2]` the function returns
NaN, so it does not return the value `0`. -/
theorem cosineSimilarity_zero_norm_counterexample :
    cosineSimilarity (K := ℝ) Real.sqrt [0, 0] [1, 2] = .ok .nan ∧
    cosineSimilarity (K := ℝ) Real.sqrt [0, 0] [1, 2] ≠ .ok (.finite 0) := by
  have h : cosineSimilarity (K := ℝ) Real.sqrt [0, 0] [1, 2] = .ok .nan := by
    simp [cosineSimilarity, cosineLoop, fdiv]
  exact ⟨h, by rw [h]; simp⟩

/-- C10, as amended: `cosineSimilarity` has no dimension check and no error
result.  When `b` is at least as long as `a` it returns a value, the one computed
from `a` and the first `len(a)` components of `b`; when `b` is shorter the read
of `b[i]` panics with index out of range; for an empty `a` (so for the pair of
empty vectors) it returns NaN. -/
theorem cosineSimilarity_no_dimension_check (sqrt : K → K) (a b : List K) :
    (a.length ≤ b.length →
      cosineSimilarity sqrt a b = cosineSimilarity sqrt a (b.take a.length) ∧
        ∃ v, cosineSimilarity sqrt a b = .ok v) ∧
    (b.length < a.length → cosineSimilarity sqrt a b = .error .indexOutOfRange) ∧
    (sqrt 0 = 0 → cosineSimilarity sqrt [] b = .ok .nan) := by
  refine ⟨?_, ?_, ?_⟩
  · intro hlen
    obtain ⟨h1, r, h2⟩ := cosineLoop_take a b (0, 0, 0) hlen
    refine ⟨by simp only [cosineSimilarity, h1], ?_⟩
    obtain ⟨d, na, nb⟩ := r
    exact ⟨fdiv d (sqrt na * sqrt nb), by simp only [cosineSimilarity, h2]⟩
  · intro hlen
    simp only [cosineSimilarity, cosineLoop_short a b (0, 0, 0) hlen]
  · intro hs
    simp [cosineSimilarity, cosineLoop, fdiv, hs]

theorem cosineSimilarity_no_dimension_check_witness :
    cosineSimilarity Real.sqrt [1] [1, 5] = cosineSimilarity Real.sqrt [1] [1] ∧
    cosineSimilarity Real.sqrt [1, 5] [1] = .error .indexOutOfRange ∧
    cosineSimilarity Real.sqrt ([] : List ℝ) [] = .ok .nan := by
  have h := cosineSimilarity_no_dimension_check Real.sqrt ([1] : List ℝ) [1, 5]
  have h2 := cosineSimilarity_no_dimension_check Real.sqrt ([1, 5] : List ℝ) [1]
  have h3 := cosineSimilarity_no_dimension_check Real.sqrt ([] : List ℝ) []
  exact ⟨(h.1 (by simp)).1, h2.2.1 (by simp), h3.2.2 Real.sqrt_zero⟩

/-- C10, as stated, fails: for `a = [1]` and the longer `b = [1, 5]` the function
returns the similarity `1`, ignoring the extra component, and for the pair of
empty vectors it returns NaN; neither call fails. -/
theorem cosineSimilarity_no_dimension_check_counterexample :
    cosineSimilarity (K := ℝ) Real.sqrt [1] [1, 5] = .ok (.finite 1) ∧
    cosineSimilarity (K := ℝ) Real.sqrt [] [] = .ok .nan := by
  constructor
  · simp [cosineSimilarity, cosineLoop, fdiv]
  · simp [cosineSimilarity, cosineLoop, fdiv]

theorem sqrt_082_bounds : (0.9 : ℝ) < Real.sqrt 0.82 ∧ Real.sqrt 0.82 < 0.9 / 0.99 := by
  constructor
  · rw [Real.lt_sqrt (by norm_num)]; norm_num
  · rw [Real.sqrt_lt' (by norm_num)]; norm_num

/-- The example scenario replayed on the collection: the query `[1,0,0,0]` with
`nResults = 2` returns `A` and then `C`. -/
theorem exampleCollection_query :
    QueryEmbedding Real.sqrt exampleCollection [1, 0, 0, 0] 2 [] [] =
      .ok [ { ID := "A", Content := "", Metadata := [], Similarity := 1 },
            { ID := "C", Content := "", Metadata := [],
              Similarity := 0.9 / Real.sqrt 0.82 } ] := by
  obtain ⟨hlo, hhi⟩ := sqrt_082_bounds
  have hpos : (0 : ℝ) < Real.sqrt 0.82 := by linarith
  have h82 : (0.9 : ℝ) * 0.9 + 0.1 * 0.1 = 0.82 := by norm_num
  have hA : VectorMath.cosine Real.sqrt [1, 0, 0, 0] [1, 0, 0, 0] = 1 := by
    simp [VectorMath.cosine, VectorMath.norm, VectorMath.dot]
  have hB : VectorMath.cosine Real.sqrt [1, 0, 0, 0] [0, 1, 0, 0] = 0 := by
    simp [VectorMath.cosine, VectorMath.norm, VectorMath.dot]
  have hC : VectorMath.cosine Real.sqrt [1, 0, 0, 0] [0.9, 0.1, 0, 0] =
      0.9 / Real.sqrt 0.82 := by
    simp [VectorMath.cosine, VectorMath.norm, VectorMath.dot, h82, hpos.ne']
  have hs : scoredMatches Real.sqrt exampleCollection [1, 0, 0, 0] [] [] =
      [ { ID := "A", Content := "", Metadata := [], Similarity := 1 },
        { ID := "B", Content := "", Metadata := [], Similarity := 0 },
        { ID := "C", Content := "", Metadata := [], Similarity := 0.9 / Real.sqrt 0.82 } ] := by
    simp only [scoredMatches, matching, exampleCollection_eq, exampleDocuments,
      passes_empty, List.filter_cons, if_true, List.filter_nil, List.map_cons, List.map_nil,
      Document.toResult, hA, hB, hC]
  have hc0 : (0 : ℝ) < 0.9 / Real.sqrt 0.82 := by positivity
  have hc1 : 0.9 / Real.sqrt 0.82 < (1 : ℝ) := by rw [div_lt_one hpos]; exact hlo
  rw [QueryEmbedding_eq Real.sqrt exampleCollection exampleCollection_WF [1, 0, 0, 0]
    (by rw [exampleCollection_eq]; rfl) 2 (by decide) [] [] rfl, hs]
  have h01 : ¬ ((1 : ℝ) < 0) := by norm_num
  have hc1' : ¬ ((1 : ℝ) < 0.9 / Real.sqrt 0.82) := not_lt.mpr hc1.le
  have hne : (0.9 / Real.sqrt 0.82 : ℝ) ≠ 1 := ne_of_lt hc1
  simp [rankAll, insertRanked, ranksBefore, h01, hc0, hc1', hne]


end Demo02Claims

/-! ## Demo 02: scaling, distances and the hand-written sort -/

section Demo02More

open Demo02

variable {K : Type} [LinearOrderedField K]

theorem cosineLoop_sums (a : List K) : ∀ (b : List K) (acc : K × K × K),
    a.length = b.length →
    cosineLoop a b acc = .ok (acc.1 + (sumProducts a b),
      acc.2.1 + (sumProducts a a), acc.2.2 + (sumProducts b b)) := by
  induction a with
  | nil =>
    intro b acc h
    have hb : b = [] := List.length_eq_zero.mp h.symm
    subst hb
    simp [cosineLoop, sumProducts]
  | cons x xs ih =>
    intro b acc h
    cases b with
    | nil => simp at h
    | cons y ys =>
      obtain ⟨d, na, nb⟩ := acc
      rw [cosineLoop, ih ys _ (by simpa using h)]
      simp [sumProducts, add_assoc]

theorem cosineSimilarity_sums (sqrt : K → K) (a b : List K) (h : a.length = b.length) :
    cosineSimilarity sqrt a b =
      .ok (fdiv (sumProducts a b)
        (sqrt (sumProducts a a) * sqrt (sumProducts b b))) := by
  unfold cosineSimilarity
  rw [cosineLoop_sums a b (0, 0, 0) h]
  simp only [zero_add]

theorem sumProducts_scale (k m : K) (a : List K) : ∀ b : List K,
    sumProducts (a.map (k * ·)) (b.map (m * ·)) =
      k * m * (sumProducts a b) := by
  induction a with
  | nil => intro b; simp [sumProducts]
  | cons x xs ih =>
    intro b
    cases b with
    | nil => simp [sumProducts]
    | cons y ys =>
      simp only [List.map_cons, sumProducts, ih ys]
      ring

theorem sumProducts_comm (a : List K) : ∀ b : List K,
    (sumProducts a b) = (sumProducts b a) := by
  induction a with
  | nil => intro b; cases b <;> simp [sumProducts]
  | cons x xs ih =>
    intro b
    cases b with
    | nil => simp [sumProducts]
    | cons y ys => simp [sumProducts, ih ys, mul_comm]

theorem sumsq_nonneg (a : List K) : 0 ≤ (sumProducts a a) := by
  induction a with
  | nil => simp [sumProducts]
  | cons x xs ih =>
    simp only [sumProducts]
    exact add_nonneg (mul_self_nonneg x) ih

theorem sumsq_pos (a : List K) (h : ∃ x ∈ a, x ≠ 0) : 0 < (sumProducts a a) := by
  induction a with
  | nil => obtain ⟨x, hx, _⟩ := h; exact absurd hx (List.not_mem_nil _)
  | cons x xs ih =>
    simp only [sumProducts]
    obtain ⟨y, hy, hy0⟩ := h
    rcases List.mem_cons.mp hy with rfl | hy
    · exact add_pos_of_pos_of_nonneg (mul_self_pos.mpr hy0) (sumsq_nonneg xs)
    · exact add_pos_of_nonneg_of_pos (mul_self_nonneg x) (ih ⟨y, hy, hy0⟩)

theorem sqrt_scale (sqrt : K → K) (hsq : ∀ x, 0 ≤ x → sqrt x * sqrt x = x)
    (hnn : ∀ x, 0 ≤ sqrt x) (k s : K) (hk : 0 < k) (hs : 0 ≤ s) :
    sqrt (k * k * s) = k * sqrt s := by
  have h1 : 0 ≤ k * k * s := mul_nonneg (mul_self_nonneg k) hs
  apply (mul_self_inj (hnn _) (mul_nonneg hk.le (hnn s))).mp
  rw [hsq _ h1]
  have := hsq s hs
  calc k * k * s = k * k * (sqrt s * sqrt s) := by rw [this]
    _ = k * sqrt s * (k * sqrt s) := by ring

/-- C11: cosine similarity is independent of vector magnitude.  In exact
arithmetic (a square root with `sqrt x * sqrt x = x` and `sqrt x ≥ 0` for
`x ≥ 0`), for equal-length vectors `a`, `b` with a non-zero component each and
scalars `k > 0`, `m > 0`: `cosineSimilarity(k*a, m*b) = cosineSimilarity(a, b)`,
`cosineSimilarity(a, b) = cosineSimilarity(b, a)`, and the value is finite. -/
theorem cosineSimilarity_scale_invariant (sqrt : K → K)
    (hsq : ∀ x, 0 ≤ x → sqrt x * sqrt x = x) (hnn : ∀ x, 0 ≤ sqrt x)
    (a b : List K) (hlen : a.length = b.length)
    (ha : ∃ x ∈ a, x ≠ 0) (hb : ∃ y ∈ b, y ≠ 0) (k m : K) (hk : 0 < k) (hm : 0 < m) :
    cosineSimilarity sqrt (a.map (k * ·)) (b.map (m * ·)) = cosineSimilarity sqrt a b ∧
    cosineSimilarity sqrt a b = cosineSimilarity sqrt b a ∧
    ∃ s, cosineSimilarity sqrt a b = .ok (.finite s) := by
  have hna := sumsq_pos a ha
  have hnb := sumsq_pos b hb
  have hsa : sqrt (sumProducts a a) ≠ 0 := by
    intro h0
    have := hsq _ hna.le
    rw [h0, mul_zero] at this
    exact hna.ne this
  have hsb : sqrt (sumProducts b b) ≠ 0 := by
    intro h0
    have := hsq _ hnb.le
    rw [h0, mul_zero] at this
    exact hnb.ne this
  have hden : sqrt (sumProducts a a) * sqrt (sumProducts b b) ≠ 0 :=
    mul_ne_zero hsa hsb
  refine ⟨?_, ?_, ?_⟩
  · rw [cosineSimilarity_sums sqrt _ _ (by simpa using hlen), cosineSimilarity_sums sqrt a b hlen,
      sumProducts_scale, sumProducts_scale, sumProducts_scale,
      sqrt_scale sqrt hsq hnn k _ hk hna.le, sqrt_scale sqrt hsq hnn m _ hm hnb.le]
    have hden2 : k * sqrt (sumProducts a a) *
        (m * sqrt (sumProducts b b)) ≠ 0 :=
      mul_ne_zero (mul_ne_zero hk.ne' hsa) (mul_ne_zero hm.ne' hsb)
    simp only [fdiv, if_neg hden, if_neg hden2]
    congr 2
    field_simp
    ring
  · rw [cosineSimilarity_sums sqrt a b hlen, cosineSimilarity_sums sqrt b a hlen.symm,
      sumProducts_comm a b, mul_comm (sqrt (sumProducts a a))]
  · exact ⟨(sumProducts a b) / (sqrt (sumProducts a a) * sqrt (sumProducts b b)),
      by rw [cosineSimilarity_sums sqrt a b hlen]; simp only [fdiv, if_neg hden]⟩

theorem cosineSimilarity_scale_invariant_witness :
    cosineSimilarity Real.sqrt ([3, 4].map ((2 : ℝ) * ·)) ([1, 2].map ((5 : ℝ) * ·)) =
      cosineSimilarity Real.sqrt [3, 4] [1, 2] ∧
    cosineSimilarity Real.sqrt ([3, 4] : List ℝ) [1, 2] = cosineSimilarity Real.sqrt [1, 2] [3, 4] ∧
    ∃ s, cosineSimilarity Real.sqrt ([3, 4] : List ℝ) [1, 2] = .ok (.finite s) :=
  cosineSimilarity_scale_invariant Real.sqrt (fun _ h => Real.mul_self_sqrt h) Real.sqrt_nonneg
    [3, 4] [1, 2] rfl ⟨3, by simp, by norm_num⟩ ⟨1, by simp, by norm_num⟩ 2 5
    (by norm_num) (by norm_num)

/-- C17: different metrics can rank results differently.  For `q = [1, 0]`,
`x = [2, 0]` and `y = [0.6, 0.8]` (equal lengths, non-zero norms) the cosine
similarity of `x` is `1` and that of `y` is `0.6`, while the Euclidean distance
of `x` is `1` and that of `y` is `sqrt 0.8 < 1`, so `distanceToSimilarity` is
`1/2` for `x` and larger for `y`: cosine ranks `x` first, Euclidean `y`. -/
theorem metrics_rank_differently :
    ∃ (q x y : List ℝ) (cx cy ex ey sx sy : ℝ),
      q.length = x.length ∧ q.length = y.length ∧
      (∃ v ∈ q, v ≠ 0) ∧ (∃ v ∈ x, v ≠ 0) ∧ (∃ v ∈ y, v ≠ 0) ∧
      cosineSimilarity Real.sqrt q x = .ok (.finite cx) ∧
      cosineSimilarity Real.sqrt q y = .ok (.finite cy) ∧ cy < cx ∧
      euclideanDistance Real.sqrt q x = .ok ex ∧
      euclideanDistance Real.sqrt q y = .ok ey ∧
      distanceToSimilarity ex = .finite sx ∧ distanceToSimilarity ey = .finite sy ∧
      sx < sy := by
  have h4 : Real.sqrt 4 = 2 := by
    rw [show (4 : ℝ) = 2 ^ 2 by norm_num, Real.sqrt_sq (by norm_num)]
  have h08 : Real.sqrt 0.8 < 1 := by
    rw [Real.sqrt_lt' (by norm_num)]; norm_num
  have h08' : (0 : ℝ) ≤ Real.sqrt 0.8 := Real.sqrt_nonneg _
  refine ⟨[1, 0], [2, 0], [0.6, 0.8], 1, 0.6, 1, Real.sqrt 0.8, 1 / 2, 1 / (1 + Real.sqrt 0.8),
    rfl, rfl, ⟨1, by simp, by norm_num⟩, ⟨2, by simp, by norm_num⟩, ⟨0.6, by simp, by norm_num⟩,
    ?_, ?_, by norm_num, ?_, ?_, ?_, ?_, ?_⟩
  · simp [cosineSimilarity, cosineLoop, fdiv, h4]
  · have : (0.6 : ℝ) * 0.6 + 0.8 * 0.8 = 1 := by norm_num
    simp [cosineSimilarity, cosineLoop, fdiv, this]
  · simp [euclideanDistance, euclideanLoop]
    norm_num
  · simp [euclideanDistance, euclideanLoop]
    norm_num
  · simp [distanceToSimilarity, fdiv]
    norm_num
  · have : (1 : ℝ) + Real.sqrt 0.8 ≠ 0 := by linarith
    simp [distanceToSimilarity, fdiv, this]
  · rw [div_lt_div_iff₀ (by norm_num) (by linarith)]
    linarith

/-- C14: `distanceToSimilarity` turns lower distance into higher similarity.
For every `d ≥ 0` the result is a finite value in `(0, 1]`, equal to `1` exactly
when `d = 0`; and for `0 ≤ d1 < d2` the result for `d1` is strictly greater than
the result for `d2`. -/
theorem distanceToSimilarity_decreasing :
    (∀ d : K, 0 ≤ d →
      ∃ s : K, distanceToSimilarity d = .finite s ∧ 0 < s ∧ s ≤ 1 ∧ (s = 1 ↔ d = 0)) ∧
    (∀ d1 d2 : K, 0 ≤ d1 → d1 < d2 →
      ∃ s1 s2 : K, distanceToSimilarity d1 = .finite s1 ∧
        distanceToSimilarity d2 = .finite s2 ∧ s2 < s1) := by
  constructor
  · intro d h0
    have h1 : (0 : K) < 1 + d := by linarith
    refine ⟨1 / (1 + d), ?_, ?_, ?_, ?_⟩
    · simp [distanceToSimilarity, fdiv, h1.ne']
    · positivity
    · rw [div_le_one h1]; linarith
    · rw [div_eq_one_iff_eq h1.ne']
      constructor
      · intro h; linarith
      · intro h; rw [h]; ring
  · intro d1 d2 h0 hlt
    have h1 : (0 : K) < 1 + d1 := by linarith
    have h2 : (0 : K) < 1 + d2 := by linarith
    refine ⟨1 / (1 + d1), 1 / (1 + d2), ?_, ?_, ?_⟩
    · simp [distanceToSimilarity, fdiv, h1.ne']
    · simp [distanceToSimilarity, fdiv, h2.ne']
    · exact one_div_lt_one_div_of_lt h1 (by linarith)

theorem distanceToSimilarity_decreasing_witness :
    (∃ s : ℚ, distanceToSimilarity (0 : ℚ) = .finite s ∧ 0 < s ∧ s ≤ 1 ∧
      (s = 1 ↔ (0 : ℚ) = 0)) ∧
    ∃ s1 s2 : ℚ, distanceToSimilarity (0 : ℚ) = .finite s1 ∧
      distanceToSimilarity (3 : ℚ) = .finite s2 ∧ s2 < s1 :=
  ⟨(distanceToSimilarity_decreasing (K := ℚ)).1 0 (le_refl 0),
   (distanceToSimilarity_decreasing (K := ℚ)).2 0 3 (le_refl 0) (by norm_num)⟩

theorem getElem?_mid {α : Type} (pre : List α) (x : α) (rest : List α) :
    (pre ++ x :: rest)[pre.length]? = some x := by
  rw [List.getElem?_append_right (le_refl _)]
  simp

theorem set_mid {α : Type} (pre : List α) (x y : α) (rest : List α) :
    (pre ++ x :: rest).set pre.length y = pre ++ y :: rest := by
  simp

theorem swapStep_mid (pre : List (docDistance K)) (cur : docDistance K)
    (done : List (docDistance K)) (y : docDistance K) (ys : List (docDistance K)) :
    swapStep (pre ++ cur :: (done ++ y :: ys)) pre.length (pre.length + 1 + done.length) =
      if cur.distance > y.distance then pre ++ y :: (done ++ cur :: ys)
      else pre ++ cur :: (done ++ y :: ys) := by
  have hj : pre.length + 1 + done.length = (pre ++ cur :: done).length := by simp; omega
  have hr : pre ++ cur :: (done ++ y :: ys) = (pre ++ cur :: done) ++ y :: ys := by simp
  have hi : (pre ++ cur :: (done ++ y :: ys))[pre.length]? = some cur := getElem?_mid _ _ _
  have hjv : (pre ++ cur :: (done ++ y :: ys))[pre.length + 1 + done.length]? = some y := by
    rw [hj, hr]; exact getElem?_mid _ _ _
  unfold swapStep
  rw [hi, hjv]
  simp only
  split
  · rw [set_mid]
    have hr2 : pre ++ y :: (done ++ y :: ys) = (pre ++ y :: done) ++ y :: ys := by simp
    have hj2 : pre.length + 1 + done.length = (pre ++ y :: done).length := by simp; omega
    rw [hr2, hj2, set_mid]
    simp
  · rfl

theorem innerLoop_spec (todo : List (docDistance K)) :
    ∀ (pre : List (docDistance K)) (cur : docDistance K) (done : List (docDistance K)),
      innerLoop pre.length todo.length (pre.length + 1 + done.length)
          (pre ++ cur :: (done ++ todo)) =
        pre ++ (passOver cur todo).1 :: (done ++ (passOver cur todo).2) := by
  induction todo with
  | nil => intro pre cur done; simp [innerLoop, passOver]
  | cons y ys ih =>
    intro pre cur done
    rw [List.length_cons, innerLoop, swapStep_mid]
    by_cases h : cur.distance > y.distance
    · rw [if_pos h]
      have := ih pre y (done ++ [cur])
      simp only [List.length_append, List.length_singleton, List.append_assoc,
        List.singleton_append] at this
      rw [show pre.length + 1 + done.length + 1 = pre.length + 1 + (done.length + 1) by omega,
        this]
      simp [passOver, h]
    · rw [if_neg h]
      have := ih pre cur (done ++ [y])
      simp only [List.length_append, List.length_singleton, List.append_assoc,
        List.singleton_append] at this
      rw [show pre.length + 1 + done.length + 1 = pre.length + 1 + (done.length + 1) by omega,
        this]
      simp [passOver, h]

theorem passOver_spec (todo : List (docDistance K)) : ∀ cur : docDistance K,
    ((passOver cur todo).1 :: (passOver cur todo).2).Perm (cur :: todo) ∧
      (passOver cur todo).1.distance ≤ cur.distance ∧
      ∀ y ∈ (passOver cur todo).2, (passOver cur todo).1.distance ≤ y.distance := by
  induction todo with
  | nil => intro cur; simp [passOver]
  | cons y ys ih =>
    intro cur
    by_cases h : cur.distance > y.distance
    · obtain ⟨hp, hle, hall⟩ := ih y
      simp only [passOver, if_pos h]
      refine ⟨?_, le_trans hle (le_of_lt h), ?_⟩
      · exact ((List.Perm.swap _ _ _).trans (List.Perm.cons cur hp)).trans (List.Perm.refl _)
      · intro z hz
        rcases List.mem_cons.mp hz with rfl | hz
        · exact le_trans hle (le_of_lt h)
        · exact hall z hz
    · obtain ⟨hp, hle, hall⟩ := ih cur
      simp only [passOver, if_neg h]
      refine ⟨?_, hle, ?_⟩
      · exact ((List.Perm.swap _ _ _).trans (List.Perm.cons y hp)).trans (List.Perm.swap _ _ _)
      · intro z hz
        rcases List.mem_cons.mp hz with rfl | hz
        · exact le_trans hle (not_lt.mp h)
        · exact hall z hz

theorem outerLoop_spec (n : Nat) :
    ∀ (rest pre : List (docDistance K)), rest.length = n →
      ∃ s, outerLoop n pre.length (pre ++ rest) = pre ++ s ∧ s.Perm rest ∧
        s.Pairwise fun a b => a.distance ≤ b.distance := by
  induction n with
  | zero =>
    intro rest pre h
    have : rest = [] := List.length_eq_zero.mp h
    subst this
    exact ⟨[], by simp [outerLoop], List.Perm.refl _, List.Pairwise.nil⟩
  | succ n ih =>
    intro rest pre h
    cases rest with
    | nil => simp at h
    | cons x xs =>
      have hx : xs.length = n := by simpa using h
      obtain ⟨hp, hle, hall⟩ := passOver_spec xs x
      have hlen2 : (passOver x xs).2.length = n := by
        have := hp.length_eq
        simp only [List.length_cons] at this
        omega
      have hinner : innerLoop pre.length ((pre ++ x :: xs).length - (pre.length + 1))
          (pre.length + 1) (pre ++ x :: xs) =
            pre ++ (passOver x xs).1 :: (passOver x xs).2 := by
        have := innerLoop_spec xs pre x []
        simp only [List.length_nil, Nat.add_zero, List.nil_append] at this
        rw [← this]
        congr 1
        simp only [List.length_append, List.length_cons]
        omega
      obtain ⟨s, hs, hsp, hss⟩ := ih (passOver x xs).2 (pre ++ [(passOver x xs).1]) hlen2
      refine ⟨(passOver x xs).1 :: s, ?_, ?_, ?_⟩
      · rw [outerLoop, hinner]
        have e1 : pre ++ (passOver x xs).1 :: (passOver x xs).2 =
            (pre ++ [(passOver x xs).1]) ++ (passOver x xs).2 := by simp
        have e2 : pre.length + 1 = (pre ++ [(passOver x xs).1]).length := by simp
        rw [e1, e2, hs]
        simp
      · exact (List.Perm.cons _ hsp).trans hp
      · refine List.Pairwise.cons ?_ hss
        intro y hy
        exact hall y (hsp.mem_iff.mp hy)

/-- C13: the hand-written sort of demo 02 sorts by distance ascending.  For
every list of `docDistance` records the nested loops end with a permutation of
the input (of the same length) in which every record's distance is at most the
distance of every later record, in particular of the next one.  The loops for
the Euclidean and for the Manhattan list are the same code. -/
theorem sortByDistance_sorts (r : List (docDistance K)) :
    (sortByDistance r).Perm r ∧
      (sortByDistance r).Pairwise (fun a b => a.distance ≤ b.distance) ∧
      (sortByDistance r).length = r.length := by
  obtain ⟨s, hs, hp, hsorted⟩ := outerLoop_spec r.length r [] rfl
  simp only [List.length_nil, List.nil_append] at hs
  rw [sortByDistance, hs]
  exact ⟨hp, hsorted, hp.length_eq⟩

end Demo02More

/-! ## Demo 04: generateQueryEmbedding -/

section Demo04Claims

open Demo04

variable {K : Type} [LinearOrderedField K]

omit [LinearOrderedField K] in
theorem tmod_1000_bounds (h : Int) : -1000 < Int.tmod h 1000 ∧ Int.tmod h 1000 < 1000 := by
  constructor
  · rcases h with n | m
    · have : 0 ≤ Int.tmod (Int.ofNat n) 1000 := Int.tmod_nonneg 1000 (Int.ofNat_nonneg n)
      omega
    · have h1 : Int.tmod (Int.negSucc m) 1000 = -(((m + 1) % 1000 : Nat) : Int) := rfl
      rw [h1]
      omega
  · exact Int.tmod_lt_of_pos h (by decide)

theorem subtractLoop_spec (fuel : Nat) : ∀ x : K, x < (fuel : K) + 1 →
    ∃ y, subtractLoop (fuel + 1) x = some y ∧ y ≤ 1 ∧ (x ≤ 1 → y = x) ∧ (1 < x → 0 < y) := by
  induction fuel with
  | zero =>
    intro x hx
    have hx1 : x < 1 := by simpa using hx
    refine ⟨x, ?_, hx1.le, fun _ => rfl, fun h => absurd h (not_lt.mpr hx1.le)⟩
    simp [subtractLoop, not_lt.mpr hx1.le]
  | succ n ih =>
    intro x hx
    by_cases h1 : 1 < x
    · obtain ⟨y, hy, hle, heq, hpos⟩ := ih (x - 1) (by push_cast at hx; linarith)
      refine ⟨y, ?_, hle, fun h => absurd h1 (not_lt.mpr h), fun _ => ?_⟩
      · rw [subtractLoop]; simp only [gt_iff_lt, h1, if_true]; exact hy
      · by_cases h2 : x - 1 ≤ 1
        · rw [heq h2]; linarith
        · exact hpos (lt_of_not_le h2)
    · refine ⟨x, ?_, not_lt.mp h1, fun _ => rfl, fun h => absurd h h1⟩
      rw [subtractLoop]; simp only [gt_iff_lt, h1, if_false]

theorem addLoop_spec (fuel : Nat) : ∀ x : K, -(fuel : K) ≤ x →
    ∃ y, addLoop (fuel + 1) x = some y ∧ 0 ≤ y ∧ (0 ≤ x → y = x) ∧ (x < 0 → y < 1) := by
  induction fuel with
  | zero =>
    intro x hx
    have hx0 : 0 ≤ x := by simpa using hx
    refine ⟨x, ?_, hx0, fun _ => rfl, fun h => absurd h (not_lt.mpr hx0)⟩
    simp [addLoop, not_lt.mpr hx0]
  | succ n ih =>
    intro x hx
    by_cases h0 : x < 0
    · obtain ⟨y, hy, hnn, heq, hlt⟩ := ih (x + 1) (by push_cast at hx; linarith)
      refine ⟨y, ?_, hnn, fun h => absurd h0 (not_lt.mpr h), fun _ => ?_⟩
      · rw [addLoop]; simp only [h0, if_true]; exact hy
      · by_cases h2 : 0 ≤ x + 1
        · rw [heq h2]; linarith
        · exact hlt (lt_of_not_le h2)
    · refine ⟨x, ?_, not_lt.mp h0, fun _ => rfl, fun h => absurd h h0⟩
      rw [addLoop]; simp only [h0, if_false]

theorem subtractLoop_mono (fuel : Nat) : ∀ (x y : K), subtractLoop fuel x = some y →
    subtractLoop (fuel + 1) x = some y := by
  induction fuel with
  | zero => intro x y h; simp [subtractLoop] at h
  | succ n ih =>
    intro x y h
    rw [subtractLoop] at h ⊢
    by_cases h1 : x > 1
    · simp only [h1, if_true] at h ⊢; exact ih _ _ h
    · simp only [h1, if_false] at h ⊢; exact h

theorem addLoop_mono (fuel : Nat) : ∀ (x y : K), addLoop fuel x = some y →
    addLoop (fuel + 1) x = some y := by
  induction fuel with
  | zero => intro x y h; simp [addLoop] at h
  | succ n ih =>
    intro x y h
    rw [addLoop] at h ⊢
    by_cases h1 : x < 0
    · simp only [h1, if_true] at h ⊢; exact ih _ _ h
    · simp only [h1, if_false] at h ⊢; exact h

theorem subtractLoop_mono_le {f f2 : Nat} (hle : f ≤ f2) (x y : K)
    (h : subtractLoop f x = some y) : subtractLoop f2 x = some y := by
  induction hle with
  | refl => exact h
  | step _ ih => exact subtractLoop_mono _ _ _ ih

theorem addLoop_mono_le {f f2 : Nat} (hle : f ≤ f2) (x y : K)
    (h : addLoop f x = some y) : addLoop f2 x = some y := by
  induction hle with
  | refl => exact h
  | step _ ih => exact addLoop_mono _ _ _ ih

theorem component_spec (fuel : Nat) (hfuel : 3 ≤ fuel) (base : K) (hlo : -1 < base)
    (hhi : base < 1) (queryLen i : Nat) (hi : i < 16) :
    ∃ z, component 3 base queryLen i = some z ∧ component fuel base queryLen i = some z ∧
      0 ≤ z ∧ z ≤ 1 := by
  have hi' : (i : K) ≤ 15 := by exact_mod_cast Nat.lt_succ_iff.mp hi
  have hi0 : (0 : K) ≤ (i : K) := Nat.cast_nonneg _
  have hl' : ((queryLen % 10 : Nat) : K) ≤ 9 := by
    exact_mod_cast Nat.lt_succ_iff.mp (Nat.mod_lt queryLen (by decide : 0 < 10))
  have hl0 : (0 : K) ≤ ((queryLen % 10 : Nat) : K) := Nat.cast_nonneg _
  obtain ⟨y, hy, hy1, hyeq, hypos⟩ := subtractLoop_spec (K := K) 2
    (base + (i : K) * 0.1 + ((queryLen % 10 : Nat) : K) * 0.01)
    (by norm_num; linarith)
  have hylo : -1 < y := by
    by_cases h : base + (i : K) * 0.1 + ((queryLen % 10 : Nat) : K) * 0.01 ≤ 1
    · rw [hyeq h]; norm_num; linarith
    · linarith [hypos (lt_of_not_le h)]
  obtain ⟨z, hz, hz0, hzeq, hzlt⟩ := addLoop_spec (K := K) 1 y (by norm_num; linarith)
  have hz3 : addLoop 3 y = some z := addLoop_mono _ _ _ hz
  have hz1 : z ≤ 1 := by
    by_cases h : 0 ≤ y
    · rw [hzeq h]; exact hy1
    · exact (hzlt (lt_of_not_le h)).le
  refine ⟨z, ?_, ?_, hz0, hz1⟩
  · simp only [component, hy, hz3]
  · simp only [component, subtractLoop_mono_le hfuel _ _ hy, addLoop_mono_le hfuel _ _ hz3]

omit [LinearOrderedField K] in
theorem components_spec (f g : Nat → Option K) (P : K → Prop) (l : List Nat)
    (h : ∀ i ∈ l, ∃ z, f i = some z ∧ g i = some z ∧ P z) :
    ∃ v, components f l = some v ∧ components g l = some v ∧ v.length = l.length ∧
      ∀ z ∈ v, P z := by
  induction l with
  | nil => exact ⟨[], rfl, rfl, rfl, fun _ hz => absurd hz (List.not_mem_nil _)⟩
  | cons i rest ih =>
    obtain ⟨z, hf, hg, hP⟩ := h i (List.mem_cons_self _ _)
    obtain ⟨v, hv, hv2, hlen, hall⟩ := ih fun j hj => h j (List.mem_cons_of_mem _ hj)
    refine ⟨z :: v, by simp [components, hf, hv], by simp [components, hg, hv2],
      by simp [hlen], ?_⟩
    intro w hw
    rcases List.mem_cons.mp hw with rfl | hw
    · exact hP
    · exact hall w hw

variable (K)

theorem generateQueryEmbedding_spec (bits fuel : Nat) (hfuel : 3 ≤ fuel) (query : String) :
    ∃ v : List K, generateQueryEmbedding bits fuel query = some v ∧
      v.length = 16 ∧ (∀ x ∈ v, 0 ≤ x ∧ x ≤ 1) ∧
      ∀ fuel2, 3 ≤ fuel2 → generateQueryEmbedding bits fuel2 query = some v := by
  obtain ⟨hlo, hhi⟩ := tmod_1000_bounds (hashOf bits query)
  have hlo' : (-1 : K) < ((Int.tmod (hashOf bits query) 1000 : Int) : K) / 1000 := by
    rw [lt_div_iff₀ (by norm_num)]
    have : ((-1000 : Int) : K) < ((Int.tmod (hashOf bits query) 1000 : Int) : K) :=
      Int.cast_lt.mpr hlo
    push_cast at this; linarith
  have hhi' : ((Int.tmod (hashOf bits query) 1000 : Int) : K) / 1000 < 1 := by
    rw [div_lt_iff₀ (by norm_num)]
    have : ((Int.tmod (hashOf bits query) 1000 : Int) : K) < ((1000 : Int) : K) :=
      Int.cast_lt.mpr hhi
    push_cast at this; linarith
  have key : ∀ f2, 3 ≤ f2 → ∀ i ∈ List.range 16, ∃ z,
      component 3 (((Int.tmod (hashOf bits query) 1000 : Int) : K) / 1000)
        query.utf8ByteSize i = some z ∧
      component f2 (((Int.tmod (hashOf bits query) 1000 : Int) : K) / 1000)
        query.utf8ByteSize i = some z ∧ (0 ≤ z ∧ z ≤ 1) := by
    intro f2 hf2 i hi
    obtain ⟨z, h3, hf, h0, h1⟩ := component_spec f2 hf2 _ hlo' hhi' query.utf8ByteSize i
      (List.mem_range.mp hi)
    exact ⟨z, h3, hf, h0, h1⟩
  obtain ⟨v, hv3, hv, hlen, hall⟩ := components_spec _ _ (fun z : K => 0 ≤ z ∧ z ≤ 1)
    (List.range 16) (key fuel hfuel)
  refine ⟨v, hv, by simpa using hlen, hall, ?_⟩
  intro fuel2 hf2
  obtain ⟨v2, hv23, hv2, _, _⟩ := components_spec _ _ (fun z : K => 0 ≤ z ∧ z ≤ 1)
    (List.range 16) (key fuel2 hf2)
  rw [hv3] at hv23
  simp only [generateQueryEmbedding]
  rw [hv2, ← Option.some.inj hv23]

/-- C15: `generateQueryEmbedding` normalizes to the 0-1 range.  For every
query string, whatever the width of the machine `int` (so also when the hash
wraps and `hash%1000` is negative), the two loops end within three checks each
and the function returns a vector of exactly 16 components, each with
`0 ≤ x ≤ 1`; the vector depends on the query alone, not on the bound given to
the loops. -/
theorem generateQueryEmbedding_range (bits fuel : Nat) (hfuel : 3 ≤ fuel) (query : String) :
    ∃ v : List K, generateQueryEmbedding bits fuel query = some v ∧
      v.length = 16 ∧ (∀ x ∈ v, 0 ≤ x ∧ x ≤ 1) ∧
      ∀ fuel2, 3 ≤ fuel2 → generateQueryEmbedding bits fuel2 query = some v :=
  generateQueryEmbedding_spec K bits fuel hfuel query

theorem generateQueryEmbedding_range_witness :
    Int.tmod (hashOf 64 "how to deploy applications") 1000 = -713 ∧
    ∃ v : List ℚ, generateQueryEmbedding 64 3 "how to deploy applications" = some v ∧
      v.length = 16 ∧ (∀ x ∈ v, 0 ≤ x ∧ x ≤ 1) :=
  ⟨by decide!, by
    obtain ⟨v, hv, hlen, hall, _⟩ :=
      generateQueryEmbedding_range ℚ 64 3 (le_refl 3) "how to deploy applications"
    exact ⟨v, hv, hlen, hall⟩⟩

end Demo04Claims

/-! ## Benchmarks: generateRandomEmbedding -/

section BenchClaims

open Benchmarks Go

theorem roundHalfEven_ge (q : ℚ) (n : Int) (h : (n : ℚ) ≤ q) : n ≤ roundHalfEven q := by
  have hf : n ≤ ⌊q⌋ := Int.le_floor.mpr h
  unfold roundHalfEven
  split_ifs <;> omega

theorem roundHalfEven_le (q : ℚ) (n : Int) (h : q ≤ (n : ℚ)) : roundHalfEven q ≤ n := by
  have hfl : (⌊q⌋ : ℚ) ≤ q := Int.floor_le q
  have hf : ⌊q⌋ ≤ n := by exact_mod_cast hfl.trans h
  by_cases hq : q - ⌊q⌋ < 1 / 2
  · simp only [roundHalfEven, if_pos hq]; exact hf
  · have hlt : (⌊q⌋ : ℚ) < n := by linarith
    have hlt' : ⌊q⌋ < n := by exact_mod_cast hlt
    unfold roundHalfEven
    split_ifs <;> omega

theorem roundHalfEven_int (n : Int) : roundHalfEven (n : ℚ) = n :=
  le_antisymm (roundHalfEven_le _ n (le_refl _)) (roundHalfEven_ge _ n (le_refl _))

theorem ulp32_pos (x : ℚ) : 0 < ulp32 x := zpow_pos (by norm_num) _

theorem log_eq_of_bounds (x : ℚ) (k : Int) (h1 : (2 : ℚ) ^ k ≤ x) (h2 : x < (2 : ℚ) ^ (k + 1)) :
    Int.log 2 x = k := by
  have hx : 0 < x := lt_of_lt_of_le (zpow_pos (by norm_num) _) h1
  apply le_antisymm
  · have := (Int.lt_zpow_iff_log_lt (b := 2) (by norm_num) hx).mp (by exact_mod_cast h2)
    omega
  · exact (Int.zpow_le_iff_le_log (b := 2) (by norm_num) hx).mp (by exact_mod_cast h1)

theorem binadeExp_eq (x : ℚ) (k : Int) (hk : -126 ≤ k) (h1 : (2 : ℚ) ^ k ≤ |x|)
    (h2 : |x| < (2 : ℚ) ^ (k + 1)) : binadeExp x = k := by
  rw [binadeExp, log_eq_of_bounds _ k h1 h2]
  exact max_eq_left hk

theorem float32_of_binade (x : ℚ) (k : Int) (hk : -126 ≤ k) (h1 : (2 : ℚ) ^ k ≤ |x|)
    (h2 : |x| < (2 : ℚ) ^ (k + 1)) :
    float32 x = (roundHalfEven (x / (2 : ℚ) ^ (k - 23)) : ℚ) * (2 : ℚ) ^ (k - 23) := by
  rw [float32, ulp32, binadeExp_eq x k hk h1 h2]

theorem float32_zero : float32 0 = 0 := by
  simp [float32, roundHalfEven]

theorem float32_nonneg (x : ℚ) (h : 0 ≤ x) : 0 ≤ float32 x := by
  have h1 : ((0 : Int) : ℚ) ≤ x / ulp32 x := by
    simpa using div_nonneg h (ulp32_pos x).le
  have h2 : (0 : Int) ≤ roundHalfEven (x / ulp32 x) := roundHalfEven_ge _ 0 h1
  exact mul_nonneg (by exact_mod_cast h2) (ulp32_pos x).le

theorem float32_nonpos (x : ℚ) (h : x ≤ 0) : float32 x ≤ 0 := by
  have h1 : x / ulp32 x ≤ ((0 : Int) : ℚ) := by
    simpa using div_nonpos_of_nonpos_of_nonneg h (ulp32_pos x).le
  have h2 : roundHalfEven (x / ulp32 x) ≤ (0 : Int) := roundHalfEven_le _ 0 h1
  exact mul_nonpos_of_nonpos_of_nonneg (by exact_mod_cast h2) (ulp32_pos x).le

theorem binadeExp_le (x : ℚ) (hx : x ≠ 0) (k : Int) (hk : -126 ≤ k) (h : |x| ≤ (2 : ℚ) ^ k) :
    binadeExp x ≤ k := by
  have hpos : 0 < |x| := abs_pos.mpr hx
  have h1 : Int.log 2 |x| ≤ Int.log 2 ((2 : ℚ) ^ k) := Int.log_mono_right hpos h
  have h2 : Int.log 2 ((2 : ℚ) ^ k) = k := by
    have := Int.log_zpow (R := ℚ) (b := 2) (by norm_num) k
    simpa using this
  rw [h2] at h1
  exact max_le h1 hk

/-- A power of two as a multiple of a smaller power of two. -/
theorem zpow_eq_natpow_mul (k e : Int) (h : e ≤ k) :
    (2 : ℚ) ^ k = (((2 : Int) ^ (k - e).toNat : Int) : ℚ) * (2 : ℚ) ^ e := by
  have hk : k = ((k - e).toNat : Int) + e := by
    rw [Int.toNat_of_nonneg (by omega)]; omega
  conv_lhs => rw [hk]
  rw [zpow_add₀ (by norm_num), zpow_natCast]
  push_cast
  rfl

theorem float32_abs_le (x : ℚ) (k : Int) (hk : -126 ≤ k) (h : |x| ≤ (2 : ℚ) ^ k) :
    -(2 : ℚ) ^ k ≤ float32 x ∧ float32 x ≤ (2 : ℚ) ^ k := by
  by_cases hx : x = 0
  · subst hx
    rw [float32_zero]
    have : (0 : ℚ) < (2 : ℚ) ^ k := zpow_pos (by norm_num) _
    constructor <;> linarith
  · have he : binadeExp x - 23 ≤ k := by
      have := binadeExp_le x hx k hk h
      omega
    have hu := ulp32_pos x
    have hpow := zpow_eq_natpow_mul k (binadeExp x - 23) he
    rw [← ulp32] at hpow
    obtain ⟨hlo, hhi⟩ := abs_le.mp h
    constructor
    · have h1 : ((-((2 : Int) ^ (k - (binadeExp x - 23)).toNat) : Int) : ℚ) ≤ x / ulp32 x := by
        rw [le_div_iff₀ hu]
        push_cast
        push_cast at hpow
        linarith
      have h2 := roundHalfEven_ge _ _ h1
      have h3 : ((-((2 : Int) ^ (k - (binadeExp x - 23)).toNat) : Int) : ℚ) ≤
          (roundHalfEven (x / ulp32 x) : ℚ) := by exact_mod_cast h2
      have h4 := mul_le_mul_of_nonneg_right h3 hu.le
      rw [float32]
      push_cast at h4 hpow
      linarith
    · have h1 : x / ulp32 x ≤ ((((2 : Int) ^ (k - (binadeExp x - 23)).toNat) : Int) : ℚ) := by
        rw [div_le_iff₀ hu]
        push_cast
        push_cast at hpow
        linarith
      have h2 := roundHalfEven_le _ _ h1
      have h3 : (roundHalfEven (x / ulp32 x) : ℚ) ≤
          ((((2 : Int) ^ (k - (binadeExp x - 23)).toNat) : Int) : ℚ) := by exact_mod_cast h2
      have h4 := mul_le_mul_of_nonneg_right h3 hu.le
      rw [float32]
      push_cast at h4 hpow
      linarith

theorem float32_top_below_one (x : ℚ) (h1 : 1 / 2 ≤ x) (h2 : x ≤ 1 - 1 / 2 ^ 24) :
    float32 x ≤ 1 - 1 / 2 ^ 24 := by
  have habs : |x| = x := abs_of_nonneg (by linarith)
  have hb := float32_of_binade x (-1) (by norm_num) (by rw [habs]; norm_num; linarith)
    (by rw [habs]; norm_num; linarith [show (0 : ℚ) < 1 / 2 ^ 24 by positivity])
  rw [hb]
  have hq : x / (2 : ℚ) ^ ((-1 : Int) - 23) ≤ (((2 : Int) ^ 24 - 1 : Int) : ℚ) := by
    rw [div_le_iff₀ (zpow_pos (by norm_num) _)]
    norm_num
    norm_num at h2
    linarith
  have h3 : (roundHalfEven (x / (2 : ℚ) ^ ((-1 : Int) - 23)) : ℚ) ≤
      (((2 : Int) ^ 24 - 1 : Int) : ℚ) := by exact_mod_cast roundHalfEven_le _ _ hq
  have h4 := mul_le_mul_of_nonneg_right h3
    (zpow_pos (by norm_num : (0 : ℚ) < 2) ((-1 : Int) - 23)).le
  refine h4.trans ?_
  norm_num

/-- A `float32` below `1` is at most `1 - 2⁻²⁴`. -/
theorem float32_lt_one (r : ℚ) (hr : float32 r = r) (h0 : 0 ≤ r) (h1 : r < 1) :
    r ≤ 1 - 1 / 2 ^ 24 := by
  by_cases hhalf : r < 1 / 2
  · have : (1 : ℚ) / 2 ^ 24 ≤ 1 / 2 := by norm_num
    linarith
  · push_neg at hhalf
    have habs : |r| = r := abs_of_nonneg h0
    have hb := float32_of_binade r (-1) (by norm_num) (by rw [habs]; norm_num; linarith)
      (by rw [habs]; norm_num; linarith)
    rw [hr] at hb
    have hu : (0 : ℚ) < (2 : ℚ) ^ ((-1 : Int) - 23) := zpow_pos (by norm_num) _
    have hn : (roundHalfEven (r / (2 : ℚ) ^ ((-1 : Int) - 23)) : ℚ) < (((2 : Int) ^ 24 : Int) : ℚ) := by
      have : (roundHalfEven (r / (2 : ℚ) ^ ((-1 : Int) - 23)) : ℚ) * (2 : ℚ) ^ ((-1 : Int) - 23) < 1 := by
        rw [← hb]; exact h1
      rw [← lt_div_iff₀ hu] at this
      refine this.trans_le ?_
      norm_num
    have hn' : roundHalfEven (r / (2 : ℚ) ^ ((-1 : Int) - 23)) ≤ (2 : Int) ^ 24 - 1 := by
      have : roundHalfEven (r / (2 : ℚ) ^ ((-1 : Int) - 23)) < (2 : Int) ^ 24 := by
        exact_mod_cast hn
      omega
    have h3 : (roundHalfEven (r / (2 : ℚ) ^ ((-1 : Int) - 23)) : ℚ) ≤
        (((2 : Int) ^ 24 - 1 : Int) : ℚ) := by exact_mod_cast hn'
    have h4 := mul_le_mul_of_nonneg_right h3 hu.le
    rw [hb]
    refine h4.trans ?_
    norm_num

/-- Doubling a `float32` is exact. -/
theorem float32_double (r : ℚ) (hr : float32 r = r) (h0 : 0 ≤ r) : float32 (r * 2) = r * 2 := by
  rcases eq_or_lt_of_le h0 with h | hpos
  · rw [← h]; simp [float32_zero]
  · have habs : |r| = r := abs_of_nonneg h0
    have habs2 : |r * 2| = r * 2 := abs_of_nonneg (by linarith)
    have hl1 : (2 : ℚ) ^ Int.log 2 r ≤ r := by
      have := Int.zpow_log_le_self (b := 2) (by norm_num) hpos
      exact_mod_cast this
    have hl2 : r < (2 : ℚ) ^ (Int.log 2 r + 1) := by
      have := Int.lt_zpow_succ_log_self (b := 2) (by norm_num) r
      exact_mod_cast this
    have hlog2 : Int.log 2 (r * 2) = Int.log 2 r + 1 := by
      apply log_eq_of_bounds
      · rw [zpow_add₀ (by norm_num), zpow_one]; linarith
      · rw [zpow_add₀ (by norm_num), zpow_one]; linarith
    have hu := ulp32_pos r
    have hq : r / ulp32 r = (roundHalfEven (r / ulp32 r) : ℚ) := by
      rw [div_eq_iff hu.ne']
      exact hr.symm
    by_cases hL : -126 ≤ Int.log 2 r
    · have hu2 : ulp32 (r * 2) = ulp32 r * 2 := by
        simp only [ulp32, binadeExp, habs, habs2, hlog2]
        rw [max_eq_left hL, max_eq_left (by omega),
          show Int.log 2 r + 1 - 23 = (Int.log 2 r - 23) + 1 by ring,
          zpow_add₀ (by norm_num), zpow_one]
      have hq2 : r * 2 / (ulp32 r * 2) = r / ulp32 r := by
        field_simp
        ring
      rw [float32, hu2, hq2, hq, roundHalfEven_int, ← hq]
      field_simp
      ring
    · have hu2 : ulp32 (r * 2) = ulp32 r := by
        simp only [ulp32, binadeExp, habs, habs2, hlog2]
        rw [max_eq_right (by omega), max_eq_right (by omega)]
      have hq2 : r * 2 / ulp32 r = ((roundHalfEven (r / ulp32 r) * 2 : Int) : ℚ) := by
        push_cast
        rw [← hq]
        field_simp
      rw [float32, hu2, hq2, roundHalfEven_int]
      push_cast
      rw [← hq]
      field_simp

/-- The rounded `2r - 1` of a `float32` `r` in `[0, 1)` stays in `[-1, 1)`. -/
theorem float32_affine_range (r : ℚ) (hr : float32 r = r) (h0 : 0 ≤ r) (h1 : r < 1) :
    -1 ≤ float32 (2 * r - 1) ∧ float32 (2 * r - 1) < 1 := by
  have hr1 := float32_lt_one r hr h0 h1
  have hy1 : 2 * r - 1 ≤ 1 - 1 / 2 ^ 24 := by
    have : (1 : ℚ) / 2 ^ 24 > 0 := by positivity
    linarith
  have hy0 : -1 ≤ 2 * r - 1 := by linarith
  have hA := float32_abs_le (2 * r - 1) 0 (by norm_num)
    (by rw [zpow_zero]; exact abs_le.mpr ⟨hy0, by linarith [show (0 : ℚ) < 1 / 2 ^ 24 by positivity]⟩)
  rw [zpow_zero] at hA
  refine ⟨hA.1, ?_⟩
  by_cases hhalf : 2 * r - 1 < 1 / 2
  · by_cases hneg : 2 * r - 1 ≤ 0
    · exact lt_of_le_of_lt (float32_nonpos _ hneg) one_pos
    · push_neg at hneg
      have hB := float32_abs_le (2 * r - 1) (-1) (by norm_num)
        (by rw [abs_of_pos hneg]; norm_num; linarith)
      have : (2 : ℚ) ^ (-1 : Int) = 1 / 2 := by norm_num
      rw [this] at hB
      linarith [hB.2]
  · push_neg at hhalf
    have := float32_top_below_one (2 * r - 1) hhalf hy1
    have hpos : (0 : ℚ) < 1 / 2 ^ 24 := by positivity
    linarith

theorem roundHalfEven_of_lt (q : ℚ) (n : Int) (h1 : (n : ℚ) ≤ q) (h2 : q - n < 1 / 2) :
    roundHalfEven q = n := by
  have hf : ⌊q⌋ = n := Int.floor_eq_iff.mpr ⟨h1, by linarith⟩
  simp only [roundHalfEven, hf, if_pos h2]

theorem sampleRand_float32 : float32 sampleRand = sampleRand ∧ 0 ≤ sampleRand ∧ sampleRand < 1 := by
  refine ⟨?_, by norm_num [sampleRand], by norm_num [sampleRand]⟩
  have habs : |sampleRand| = sampleRand := abs_of_nonneg (by norm_num [sampleRand])
  rw [float32_of_binade sampleRand (-4) (by norm_num) (by rw [habs]; norm_num [sampleRand])
    (by rw [habs]; norm_num [sampleRand])]
  have hq : sampleRand / (2 : ℚ) ^ ((-4 : Int) - 23) = ((8858437 : Int) : ℚ) := by
    norm_num [sampleRand]
  rw [hq, roundHalfEven_int]
  norm_num [sampleRand]

theorem sampleRand_rounded : float32 (float32 (sampleRand * 2) - 1) = -14562607 / 2 ^ 24 := by
  rw [float32_double sampleRand sampleRand_float32.1 sampleRand_float32.2.1]
  have habs : |sampleRand * 2 - 1| = 1 - sampleRand * 2 := by
    rw [abs_of_nonpos (by norm_num [sampleRand])]; ring
  rw [float32_of_binade (sampleRand * 2 - 1) (-1) (by norm_num)
    (by rw [habs]; norm_num [sampleRand]) (by rw [habs]; norm_num [sampleRand])]
  rw [roundHalfEven_of_lt _ (-14562607) (by norm_num [sampleRand]) (by norm_num [sampleRand])]
  norm_num

/-- C16, as amended: `generateRandomEmbedding(dimension)`.  For every
`dimension` from `0` up to the largest length `make` accepts and every random
source whose values are `float32` values in `[0, 1)`, the call returns a vector
of exactly `dimension` components, the `i`-th equal to the `float32` rounding of
`2r - 1` for the `i`-th random value `r`, and every component lies in `[-1, 1)`;
for a larger `dimension` the call panics in `make`. -/
theorem generateRandomEmbedding_range (maxLen : Int) (rand : Nat → ℚ)
    (hr : ∀ i, float32 (rand i) = rand i ∧ 0 ≤ rand i ∧ rand i < 1)
    (dimension : Int) (hd : 0 ≤ dimension) :
    (dimension ≤ maxLen →
      ∃ v : List ℚ, generateRandomEmbedding maxLen rand dimension = .ok v ∧
        (v.length : Int) = dimension ∧
        (∀ i : Nat, (i : Int) < dimension → v[i]? = some (float32 (2 * rand i - 1))) ∧
        ∀ x ∈ v, -1 ≤ x ∧ x < 1) ∧
    (maxLen < dimension →
      generateRandomEmbedding maxLen rand dimension = .error .makeSliceLenOutOfRange) := by
  have hcomp : ∀ i, float32 (float32 (rand i * 2) - 1) = float32 (2 * rand i - 1) := by
    intro i
    rw [float32_double (rand i) (hr i).1 (hr i).2.1, mul_comm]
  constructor
  · intro hmax
    refine ⟨(List.range dimension.toNat).map fun i => float32 (float32 (rand i * 2) - 1),
      ?_, ?_, ?_, ?_⟩
    · have hguard : ¬ (dimension < 0 ∨ maxLen < dimension) := by
        push_neg; exact ⟨hd, hmax⟩
      simp only [generateRandomEmbedding, if_neg hguard]
    · simp [Int.toNat_of_nonneg hd]
    · intro i hi
      have hi2 : i < dimension.toNat := by omega
      simp [List.getElem?_map, List.getElem?_range hi2, hcomp]
    · intro x hx
      obtain ⟨i, _, rfl⟩ := List.mem_map.mp hx
      rw [hcomp]
      exact float32_affine_range (rand i) (hr i).1 (hr i).2.1 (hr i).2.2
  · intro hmax
    simp only [generateRandomEmbedding, if_pos (Or.inr hmax)]

theorem generateRandomEmbedding_range_witness :
    ∃ v : List ℚ, generateRandomEmbedding (2 ^ 46) (fun _ => sampleRand) 3 = .ok v ∧
      (v.length : Int) = 3 ∧
      (∀ i : Nat, (i : Int) < 3 → v[i]? = some (float32 (2 * sampleRand - 1))) ∧
      ∀ x ∈ v, -1 ≤ x ∧ x < 1 :=
  (generateRandomEmbedding_range (2 ^ 46) (fun _ => sampleRand) (fun _ => sampleRand_float32)
    3 (by norm_num)).1 (by norm_num)

/-- C16, as stated, fails: for the `float32` value `r = 8858437 · 2⁻²⁷` the
component is `-14562607 · 2⁻²⁴`, not `2r - 1 = -58250427 · 2⁻²⁶`; and for
`dimension = 2⁶²` (with the limit `2⁴⁶` of 64-bit Linux) the call panics instead
of returning a vector. -/
theorem generateRandomEmbedding_range_counterexample :
    (float32 sampleRand = sampleRand ∧ 0 ≤ sampleRand ∧ sampleRand < 1) ∧
    generateRandomEmbedding (2 ^ 46) (fun _ => sampleRand) 1 = .ok [-14562607 / 2 ^ 24] ∧
    (-14562607 / 2 ^ 24 : ℚ) ≠ 2 * sampleRand - 1 ∧
    generateRandomEmbedding (2 ^ 46) (fun _ => sampleRand) (2 ^ 62) =
      .error .makeSliceLenOutOfRange := by
  refine ⟨sampleRand_float32, ?_, by norm_num [sampleRand], ?_⟩
  · have hguard : ¬ ((1 : Int) < 0 ∨ (2 : Int) ^ 46 < 1) := by norm_num
    simp only [generateRandomEmbedding, if_neg hguard]
    simp [List.range_succ, sampleRand_rounded]
  · have hguard : ((2 : Int) ^ 62 < 0 ∨ (2 : Int) ^ 46 < 2 ^ 62) := Or.inr (by norm_num)
    simp only [generateRandomEmbedding, if_pos hguard]

end BenchClaims

/-! ## The demos and the dimension invariant -/

section DemoDims

open FilterEngine Demo04

variable {K : Type} [LinearOrderedField K]

theorem QueryEmbedding_succeeds (sqrt : K → K) (c : Collection K) (hwf : c.WF)
    (q : List K) (hq : c.dimension = some q.length) (mf cf : StrMap)
    (hcf : validContentFilter cf = true) (nResults : Int) (h1 : 1 ≤ nResults) :
    ∃ r, QueryEmbedding sqrt c q nResults mf cf = .ok r :=
  ⟨_, (QueryEmbedding_ranked sqrt c hwf q hq mf cf hcf nResults h1).2.2⟩

/-- C18 evaluated on the code: each of the ten document embeddings of demo 01,
and its query embedding, has 16 components, not the 384 that the comment on the
document list announces. -/
theorem demo01_embedding_length :
    (∀ d ∈ (Demo01.documents : List (Document K)), d.Embedding.length = 16) ∧
    (Demo01.queryEmbedding : List K).length = 16 ∧
    (∀ d ∈ (Demo01.documents : List (Document K)), d.Embedding.length ≠ 384) ∧
    (Demo01.queryEmbedding : List K).length ≠ 384 := by
  refine ⟨?_, rfl, ?_, by simp [Demo01.queryEmbedding]⟩
  · simp [Demo01.documents]
  · simp [Demo01.documents]

/-- C12: the demos satisfy the dimension invariant without an embedding
provider.  In demos 01, 03 and 04 every document passed to `AddDocuments` has a
non-empty embedding of length 16 and every query embedding has length 16, also
every vector `generateQueryEmbedding` returns; so each `AddDocuments` call, made
with no provider, commits its batch without error, and each `QueryEmbedding`
call of the demos succeeds. -/
theorem demos_dimension_invariant (sqrt : K → K) :
    ((∀ d ∈ (Demo01.documents : List (Document K)),
        d.Embedding ≠ [] ∧ d.Embedding.length = 16) ∧
      (Demo01.queryEmbedding : List K).length = 16 ∧
      AddDocuments none (newCollection "tech-concepts" []) (Demo01.documents : List (Document K))
        1 = (Demo01.collection, none) ∧
      ∃ r, QueryEmbedding sqrt Demo01.collection Demo01.queryEmbedding 5 [] [] = .ok r) ∧
    ((∀ d ∈ (Demo03.documents : List (Document K)),
        d.Embedding ≠ [] ∧ d.Embedding.length = 16) ∧
      (Demo03.queryEmbedding : List K).length = 16 ∧
      (Demo03.queryEmbedding2 : List K).length = 16 ∧
      (Demo03.queryEmbedding3 : List K).length = 16 ∧
      AddDocuments none
        (newCollection "knowledge-base"
          [("description", "Technical documentation snippets"), ("version", "1.0")])
        (Demo03.documents : List (Document K)) 1 = (Demo03.collection, none) ∧
      (∃ r, QueryEmbedding sqrt Demo03.collection Demo03.queryEmbedding 2 [] [] = .ok r) ∧
      (∃ r, QueryEmbedding sqrt Demo03.collection Demo03.queryEmbedding 3 [] [] = .ok r) ∧
      (∃ r, QueryEmbedding sqrt Demo03.collection Demo03.queryEmbedding2 5
        [("difficulty", "beginner")] [] = .ok r) ∧
      ∃ r, QueryEmbedding sqrt Demo03.collection Demo03.queryEmbedding3 5
        [] [("$contains", "API")] = .ok r) ∧
    ((∀ d ∈ (Demo04.createDocumentationSnippets : List (Document K)),
        d.Embedding ≠ [] ∧ d.Embedding.length = 16) ∧
      (Demo04.backendQuery : List K).length = 16 ∧
      (Demo04.devopsQuery : List K).length = 16 ∧
      (Demo04.dockerQuery : List K).length = 16 ∧
      AddDocuments none (newCollection "docs" [])
        (Demo04.createDocumentationSnippets : List (Document K)) 1 =
          (Demo04.collection, none) ∧
      (∀ (bits fuel : Nat) (query : String), 3 ≤ fuel →
        ∃ v : List K, generateQueryEmbedding bits fuel query = some v ∧ v.length = 16 ∧
          ∃ r, QueryEmbedding sqrt Demo04.collection v 3 [] [] = .ok r) ∧
      (∃ r, QueryEmbedding sqrt Demo04.collection Demo04.backendQuery 3
        [("category", "backend")] [] = .ok r) ∧
      (∃ r, QueryEmbedding sqrt Demo04.collection Demo04.devopsQuery 3
        [("category", "devops")] [] = .ok r) ∧
      ∃ r, QueryEmbedding sqrt Demo04.collection Demo04.dockerQuery 10
        [] [("$contains", "Docker")] = .ok r) := by
  have q1 : ∀ (q : List K), q.length = 16 →
      (Demo01.collection : Collection K).dimension = some q.length := by
    intro q h; rw [demo01_collection_eq, h]
  have q3 : ∀ (q : List K), q.length = 16 →
      (Demo03.collection : Collection K).dimension = some q.length := by
    intro q h; rw [demo03_collection_eq, h]
  have q4 : ∀ (q : List K), q.length = 16 →
      (Demo04.collection : Collection K).dimension = some q.length := by
    intro q h; rw [demo04_collection_eq, h]
  refine ⟨⟨?_, rfl, ?_, ?_⟩, ⟨?_, rfl, rfl, rfl, ?_, ?_, ?_, ?_, ?_⟩,
    ⟨?_, rfl, rfl, rfl, ?_, ?_, ?_, ?_, ?_⟩⟩
  · simp [Demo01.documents]
  · rw [demo01_collection_eq]
    exact AddDocuments_new none _ _ Demo01.documents 16 1
      (by simp [Demo01.documents]) (by simp [Demo01.documents]) (by simp [Demo01.documents])
      (by simp [Demo01.documents])
  · exact QueryEmbedding_succeeds sqrt _ demo01_collection_WF Demo01.queryEmbedding
      (q1 _ rfl) [] [] rfl 5 (by decide)
  · simp [Demo03.documents]
  · rw [demo03_collection_eq]
    exact AddDocuments_new none _ _ Demo03.documents 16 1
      (by simp [Demo03.documents]) (by simp [Demo03.documents]) (by simp [Demo03.documents])
      (by simp [Demo03.documents])
  · exact QueryEmbedding_succeeds sqrt _ demo03_collection_WF Demo03.queryEmbedding
      (q3 _ rfl) [] [] rfl 2 (by decide)
  · exact QueryEmbedding_succeeds sqrt _ demo03_collection_WF Demo03.queryEmbedding
      (q3 _ rfl) [] [] rfl 3 (by decide)
  · exact QueryEmbedding_succeeds sqrt _ demo03_collection_WF Demo03.queryEmbedding2
      (q3 _ rfl) _ [] rfl 5 (by decide)
  · exact QueryEmbedding_succeeds sqrt _ demo03_collection_WF Demo03.queryEmbedding3
      (q3 _ rfl) [] [("$contains", "API")] rfl 5 (by decide)
  · simp [Demo04.createDocumentationSnippets]
  · rw [demo04_collection_eq]
    exact AddDocuments_new none _ _ Demo04.createDocumentationSnippets 16 1
      (by simp [Demo04.createDocumentationSnippets])
      (by simp [Demo04.createDocumentationSnippets])
      (by simp [Demo04.createDocumentationSnippets])
      (by simp [Demo04.createDocumentationSnippets])
  · intro bits fuel query hfuel
    obtain ⟨v, hv, hlen, _, _⟩ := generateQueryEmbedding_spec K bits fuel hfuel query
    exact ⟨v, hv, hlen,
      QueryEmbedding_succeeds sqrt _ demo04_collection_WF _ (q4 _ hlen) [] [] rfl 3 (by decide)⟩
  · exact QueryEmbedding_succeeds sqrt _ demo04_collection_WF Demo04.backendQuery
      (q4 _ rfl) _ [] rfl 3 (by decide)
  · exact QueryEmbedding_succeeds sqrt _ demo04_collection_WF Demo04.devopsQuery
      (q4 _ rfl) _ [] rfl 3 (by decide)
  · exact QueryEmbedding_succeeds sqrt _ demo04_collection_WF Demo04.dockerQuery
      (q4 _ rfl) [] [("$contains", "Docker")] rfl 10 (by decide)

theorem demos_dimension_invariant_witness :
    ∃ v : List ℝ, Demo04.generateQueryEmbedding 64 3 "how to deploy applications" = some v ∧
      v.length = 16 ∧
      ∃ r, QueryEmbedding Real.sqrt Demo04.collection v 3 [] [] = .ok r :=
  (demos_dimension_invariant Real.sqrt).2.2.2.2.2.2.2.1 64 3 "how to deploy applications"
    (le_refl 3)

end DemoDims

end Searchless
